import Mathlib

/-!
Verification development for the persistent agent-process protocol client
(`src/voice_assistant/claude/client.py`, class `ClaudeCodeClient`) and the
per-connection request-lifecycle coordinator
(`src/api/websocket_handler.py`, class `WebSocketHandler`).

The Python code is shallowly embedded:

* JSON values exchanged on the stream-json wire protocol are modelled by
  the inductive type `JVal`; `json.loads` applied to one line of process
  output is modelled by presenting each line as a `RawLine` (blank,
  malformed, or a decoded `JVal`), since the JSON parser itself is the
  Python standard library, not repository code.
* The read loop of `ClaudeCodeClient.execute_streaming` is the function
  `readLoop`; it threads the mutable locals (`tool_calls`,
  `sent_text_blocks`, `last_text_block_callback`) through `LoopState`
  and records every externally visible action (interruption checks,
  `readline` calls, callback invocations, `tool_calls.append`,
  background-task spawns) in an ordered trace of `TraceEv`.
* The cooperative-interruption predicate `is_interrupted` is modelled as
  a function `Nat → Bool` giving the value returned by its n-th
  invocation; an absent predicate behaves exactly like `fun _ => false`.
* The write phase of `execute_streaming` (history replay and prompt
  write, including the broken-pipe restart-and-retry) is `writePhase`;
  a write-plus-drain to the process stdin either succeeds or raises a
  `BrokenPipeError`/`OSError`, modelled by an environment `wok : Nat →
  Bool` giving the fate of the n-th write attempt.  Exceptions escaping
  the Python function are modelled by `Except.error`.
* The WebSocket handler's request lifecycle state (`processing`,
  `interrupted`, `current_task`) is the state machine `wsStep`/`wsRun`;
  `ghostCurrent` and `delivered` are specification-only ghost fields
  recording which request most recently began and which tool-summary
  messages actually reached the client.
-/

/-- A JSON value, as produced by `json.loads` on one line of process
output.  Objects keep their fields in order; Python dict keys are unique. -/
inductive JVal where
  | jnull : JVal
  | jbool : Bool → JVal
  | jnum : Int → JVal
  | jstr : String → JVal
  | jarr : List JVal → JVal
  | jobj : List (String × JVal) → JVal

/-- Field lookup on a JSON object, modelling Python `dict.get(k)`:
`none` both for a missing key and for a non-object receiver (a non-dict
receiver raises `AttributeError` in Python; at every call site in the
embedded code that exception is swallowed by the surrounding
`except Exception: continue`, which is observationally the same as the
branch taken on `none`). -/
def jget : JVal → String → Option JVal
  | .jobj fs, k => fs.lookup k
  | _, _ => none

/-- Python truthiness of a JSON value (`if value:`). -/
def pyTruthy : JVal → Bool
  | .jnull => false
  | .jbool b => b
  | .jnum n => n != 0
  | .jstr s => s != ""
  | .jarr xs => !xs.isEmpty
  | .jobj fs => !fs.isEmpty

/-- Python `str()` of a JSON value, used for f-string interpolation
(`f"Using {tool_name}"`, `str(tool_id)`).  Exact for the strings and
numbers the protocol actually carries. -/
def pyStr : JVal → String
  | .jnull => "None"
  | .jbool true => "True"
  | .jbool false => "False"
  | .jnum n => toString n
  | .jstr s => s
  | .jarr _ => "[...]"
  | .jobj _ => "{...}"

/-- Python `str.strip()`: remove leading and trailing whitespace.
Defined directly on the character list so that concrete instances
evaluate by reduction (Lean's own `String.trim` is defined through
byte-position recursion that the kernel cannot unfold). -/
def pyStrip (s : String) : String :=
  ⟨((s.data.dropWhile Char.isWhitespace).reverse.dropWhile
      Char.isWhitespace).reverse⟩

/-- One entry of `tool_calls` (client.py lines 537-541):
`{"name": item.get("name", "unknown"), "id": item.get("id"),
"input": item.get("input", {})}`. -/
structure ToolCall where
  name : JVal
  id : Option JVal
  input : JVal

/-- The mutable locals of the read loop (client.py lines 446-450).
`lastTextBlock` models `last_text_block_callback`; the stored callback is
always `on_text_block`, so only the text component is kept. -/
structure LoopState where
  toolCalls : List ToolCall
  sentTextBlocks : List String
  lastTextBlock : Option String

/-- The externally visible actions of the read loop, in order:
interruption checks (with the value the predicate returned), `readline`
calls, appends to `tool_calls`, callback invocations, and spawns of the
background `_summarize_and_update` task. -/
inductive TraceEv where
  | check : Bool → TraceEv
  | readLine : TraceEv
  | record : ToolCall → TraceEv
  | textBlock : String → Bool → TraceEv
  | toolUse : JVal → JVal → String → TraceEv
  | spawnSummary : JVal → JVal → TraceEv
  | toolInputProgress : String → String → JVal → TraceEv
  | thinking : JVal → TraceEv

/-- Which of the optional callbacks were supplied to
`execute_streaming`. -/
structure Callbacks where
  onToolUse : Bool
  onToolSummaryUpdate : Bool
  onTextBlock : Bool
  onToolInputProgress : Bool
  onThinkingBlock : Bool

/-- One line of process stdout as seen by the read loop: empty after
`strip()`, undecodable (`json.JSONDecodeError`), or a decoded JSON
value. -/
inductive RawLine where
  | blank : RawLine
  | malformed : RawLine
  | json : JVal → RawLine

/-- The structured value returned by `execute_streaming`
(`success`, `response`, `tool_calls`, `already_sent_as_text_block`;
the failure dictionaries in the source omit the last key, which callers
read back with default `False`). -/
structure Outcome where
  success : Bool
  response : String
  toolCalls : List ToolCall
  alreadySent : Bool

/-- The failure outcome built at client.py lines 656-661. -/
def noResponseOutcome (tcs : List ToolCall) : Outcome :=
  ⟨false, "No response received from Claude process", tcs, false⟩

/-- The failure outcome built at every interruption check
(client.py lines 458-462 and its copies). -/
def interruptedOutcome (tcs : List ToolCall) : Outcome :=
  ⟨false, "Request interrupted by user", tcs, false⟩

/-- `item.get("text", "").strip()` preparation: `none` models the
`AttributeError` Python raises when the `"text"` field holds a
non-string (the surrounding `except Exception` then skips the rest of
the line). -/
def textField (item : JVal) : Option String :=
  match jget item "text" with
  | none => some ""
  | some (.jstr s) => some s
  | some _ => none

/-- Result of processing the `content` items of one `assistant` event:
whether an interruption check returned true mid-way, the updated loop
state, the trace of actions, and the number of interruption checks
consumed. -/
structure ItemsOut where
  intr : Bool
  st : LoopState
  tr : List TraceEv
  ticks : Nat

/-- The `for item in content:` loop of client.py lines 509-561.
A non-dict item raises `AttributeError` at `item.get`, which the outer
`except Exception` turns into skipping the rest of the line: earlier
effects are kept, later items are not processed.  A dict item with an
unrecognized `type` is skipped and iteration continues. -/
def procItems (cb : Callbacks) (itp : Nat → Bool) :
    List JVal → LoopState → Nat → ItemsOut
  | [], st, _ => ⟨false, st, [], 0⟩
  | item :: rest, st, t =>
    match item with
    | .jobj _ =>
      match jget item "type" with
      | some (.jstr "text") =>
        match textField item with
        | none => ⟨false, st, [], 0⟩
        | some s =>
          let txt := pyStrip s
          if txt != "" && cb.onTextBlock then
            if itp t then ⟨true, st, [.check true], 1⟩
            else
              let st' : LoopState :=
                { st with sentTextBlocks := st.sentTextBlocks ++ [txt],
                          lastTextBlock := some txt }
              let r := procItems cb itp rest st' (t + 1)
              ⟨r.intr, r.st, .check false :: .textBlock txt false :: r.tr,
                1 + r.ticks⟩
          else procItems cb itp rest st t
      | some (.jstr "tool_use") =>
        let name := (jget item "name").getD (.jstr "unknown")
        let input := (jget item "input").getD (.jobj [])
        let tc : ToolCall := ⟨name, jget item "id", input⟩
        let st' : LoopState := { st with toolCalls := st.toolCalls ++ [tc] }
        if cb.onToolUse then
          if itp t then ⟨true, st', [.record tc, .check true], 1⟩
          else
            let r := procItems cb itp rest st' (t + 1)
            ⟨r.intr, r.st,
              .record tc :: .check false ::
                .toolUse name input ("Using " ++ pyStr name) ::
                .spawnSummary name input :: r.tr,
              1 + r.ticks⟩
        else
          let r := procItems cb itp rest st' t
          ⟨r.intr, r.st, .record tc :: r.tr, r.ticks⟩
      | _ => procItems cb itp rest st t
    | _ => ⟨false, st, [], 0⟩

/-- Result of one iteration of the read loop: an interruption check
returned true, a `result` event was captured (`break`), or the loop
continues with an updated state after consuming some number of
interruption checks. -/
inductive IterRes where
  | iInterrupted : LoopState → List TraceEv → IterRes
  | iGot : JVal → LoopState → List TraceEv → IterRes
  | iCont : LoopState → List TraceEv → Nat → IterRes

/-- The `content` list of an `assistant` event
(client.py lines 506-507): `event.get("message", {}).get("content", [])`,
iterable only when it is a JSON array (any other shape produces no
items, by error or by emptiness). -/
def contentItems (v : JVal) : List JVal :=
  match jget ((jget v "message").getD (.jobj [])) "content" with
  | some (.jarr xs) => xs
  | _ => []

/-- Package the outcome of the content-item loop as an iteration
result. -/
def assistantWrap (r : ItemsOut) : IterRes :=
  if r.intr then .iInterrupted r.st r.tr else .iCont r.st r.tr r.ticks

/-- The `content_block_delta` handling of client.py lines 564-605,
entered with the next interruption check numbered `u`.  `pp s` models
`json.loads(s + "}")` (`none` = `json.JSONDecodeError`, in which case
`current_input = {}`). -/
def handleDelta (cb : Callbacks) (pp : String → Option JVal)
    (itp : Nat → Bool) (v : JVal) (st : LoopState) (u : Nat) : IterRes :=
  let delta := (jget v "delta").getD (.jobj [])
  match jget delta "type" with
  | some (.jstr "input_json_delta") =>
    let pjson := (jget delta "partial_json").getD (.jstr "")
    if pyTruthy pjson && cb.onToolInputProgress then
      if itp u then .iInterrupted st [.check true]
      else
        match pjson with
        | .jstr s =>
          let toolId := pyStr ((jget v "index").getD (.jstr "unknown"))
          let current := (pp s).getD (.jobj [])
          .iCont st [.check false, .toolInputProgress toolId s current] 1
        | _ =>
          -- non-string partial_json: `partial_json + "}"` raises
          -- TypeError, the outer handler skips the rest of the line
          .iCont st [.check false] 1
    else .iCont st [] 0
  | some (.jstr "thinking_delta") =>
    let tv := (jget delta "text").getD (.jstr "")
    if pyTruthy tv && cb.onThinkingBlock then
      if itp u then .iInterrupted st [.check true]
      else .iCont st [.check false, .thinking tv] 1
    else .iCont st [] 0
  | _ => .iCont st [] 0

/-- Dispatch on the decoded event's `type` discriminator
(client.py lines 498-620), entered with the next interruption check
numbered `u`. -/
def dispatchEvent (cb : Callbacks) (pp : String → Option JVal)
    (itp : Nat → Bool) (v : JVal) (st : LoopState) (u : Nat) : IterRes :=
  match jget v "type" with
  | some (.jstr "system") => .iCont st [] 0
  | some (.jstr "assistant") =>
    assistantWrap (procItems cb itp (contentItems v) st u)
  | some (.jstr "content_block_delta") => handleDelta cb pp itp v st u
  | some (.jstr "result") =>
    if itp u then .iInterrupted st [.check true]
    else .iGot ((jget v "result").getD (.jstr "")) st [.check false]
  | _ => .iCont st [] 0

/-- One full iteration of the `while True:` read loop
(client.py lines 454-620): interruption check at the top, `readline`,
blank-line skip, interruption check after reading, JSON decode
(malformed lines are skipped), interruption check after parsing, then
event dispatch. -/
def processLine (cb : Callbacks) (pp : String → Option JVal)
    (itp : Nat → Bool) (l : RawLine) (st : LoopState) (t : Nat) : IterRes :=
  if itp t then .iInterrupted st [.check true]
  else
    match l with
    | .blank => .iCont st [.check false, .readLine] 1
    | .malformed =>
      if itp (t + 1) then
        .iInterrupted st [.check false, .readLine, .check true]
      else .iCont st [.check false, .readLine, .check false] 2
    | .json v =>
      if itp (t + 1) then
        .iInterrupted st [.check false, .readLine, .check true]
      else if itp (t + 2) then
        .iInterrupted st [.check false, .readLine, .check false, .check true]
      else
        let pre : List TraceEv :=
          [.check false, .readLine, .check false, .check false]
        match dispatchEvent cb pp itp v st (t + 3) with
        | .iInterrupted st' tr => .iInterrupted st' (pre ++ tr)
        | .iGot w st' tr => .iGot w st' (pre ++ tr)
        | .iCont st' tr c => .iCont st' (pre ++ tr) (3 + c)

/-- How the read loop ended: an interruption check returned true, the
stream reached end-of-file with no `result` event, or a `result` event
was captured. -/
inductive LoopRes where
  | interrupted : LoopState → LoopRes
  | eof : LoopState → LoopRes
  | got : JVal → LoopState → LoopRes

/-- The whole read loop over the remaining stream.  An empty list means
the next `readline` returns `b""` (end of file, `break`). -/
def readLoop (cb : Callbacks) (pp : String → Option JVal)
    (itp : Nat → Bool) : List RawLine → LoopState → Nat → LoopRes × List TraceEv
  | [], st, t =>
    if itp t then (.interrupted st, [.check true])
    else (.eof st, [.check false, .readLine])
  | l :: rest, st, t =>
    match processLine cb pp itp l st t with
    | .iInterrupted st' tr => (.interrupted st', tr)
    | .iGot v st' tr => (.got v st', tr)
    | .iCont st' tr c =>
      let r := readLoop cb pp itp rest st' (t + c)
      (r.1, tr ++ r.2)

/-- The post-loop logic of client.py lines 638-661.  `result_received`
is true here; `pyTruthy v` is `if result_received and final_result:`.
A truthy non-string `result` value would make `final_result.strip()`
raise `AttributeError` outside any handler, modelled by `Except.error`.
The duplicate-detection re-invokes `on_text_block(final_text,
is_final=True)` only when the final text equals the text of the *last*
`last_text_block_callback` entry. -/
def finalizeResult (st : LoopState) (v : JVal) :
    Except Unit Outcome × List TraceEv :=
  if pyTruthy v then
    match v with
    | .jstr s =>
      let ft := pyStrip s
      let already := st.sentTextBlocks.contains ft
      let extra : List TraceEv :=
        if already then
          match st.lastTextBlock with
          | some txt => if txt == ft then [.textBlock ft true] else []
          | none => []
        else []
      (.ok ⟨true, ft, st.toolCalls, already⟩, extra)
    | _ => (.error (), [])
  else (.ok (noResponseOutcome st.toolCalls), [])

/-- The streaming part of `execute_streaming` (read loop plus post-loop
outcome construction), started from an arbitrary loop state. -/
def runStreamFrom (cb : Callbacks) (pp : String → Option JVal)
    (itp : Nat → Bool) (st0 : LoopState) (lines : List RawLine) :
    Except Unit Outcome × List TraceEv :=
  match readLoop cb pp itp lines st0 0 with
  | (.interrupted st, tr) => (.ok (interruptedOutcome st.toolCalls), tr)
  | (.eof st, tr) => (.ok (noResponseOutcome st.toolCalls), tr)
  | (.got v st, tr) =>
    let r := finalizeResult st v
    (r.1, tr ++ r.2)

/-- The initial values of the read loop's locals
(client.py lines 446-450). -/
def initLoopState : LoopState := ⟨[], [], none⟩

/-- The streaming part of `execute_streaming`, from the initial state. -/
def runStream (cb : Callbacks) (pp : String → Option JVal)
    (itp : Nat → Bool) (lines : List RawLine) :
    Except Unit Outcome × List TraceEv :=
  runStreamFrom cb pp itp initLoopState lines


/-- The child-process handle: `self.claude_process` is `none` when the
handle has been discarded; `alive` models `returncode is None`. -/
structure Proc where
  pid : Nat
  alive : Bool
  deriving DecidableEq, Repr

/-- The client's process-related fields: `self.claude_process` and
`self.claude_needs_history`. -/
structure ProcSt where
  proc : Option Proc
  needsHistory : Bool
  deriving DecidableEq, Repr

/-- `ClaudeCodeClient._start_persistent_claude` (client.py lines
240-282): a no-op when a live process exists; otherwise the stale handle
(if any) is terminated and a fresh process is spawned.  The function
never touches `claude_needs_history`. -/
def startPersistentClaude (s : ProcSt) (newPid : Nat) : ProcSt :=
  match s.proc with
  | some p =>
    if p.alive then s
    else { proc := some ⟨newPid, true⟩, needsHistory := s.needsHistory }
  | none => { proc := some ⟨newPid, true⟩, needsHistory := s.needsHistory }

/-- `ClaudeCodeClient.interrupt_and_restart` (client.py lines 663-683):
kill the process, clear the handle, set `claude_needs_history`.  A no-op
when no handle exists. -/
def interruptAndRestart (s : ProcSt) : ProcSt :=
  match s.proc with
  | some _ => { proc := none, needsHistory := true }
  | none => s

/-- One conversation-history entry as read back by the client:
`msg.get("role", "user")` and `msg.get("content", "")`. -/
structure HistEntry where
  role : String
  content : String
  deriving DecidableEq, Repr

/-- The stream-json envelope built for one replayed history entry
(client.py lines 379-385). -/
def encodeHistory (e : HistEntry) : JVal :=
  .jobj [("type", .jstr (if e.role == "user" then "user" else "assistant")),
         ("message", .jobj
           [("role", .jstr e.role),
            ("content", .jarr [.jobj [("type", .jstr "text"),
                                      ("text", .jstr e.content)]])])]

/-- The stream-json envelope built for the live prompt
(client.py lines 400-406). -/
def encodePrompt (p : String) : JVal :=
  .jobj [("type", .jstr "user"),
         ("message", .jobj
           [("role", .jstr "user"),
            ("content", .jarr [.jobj [("type", .jstr "text"),
                                      ("text", .jstr p)]])])]

/-- Serially write the encodings of the given history entries to the
process stdin, stopping at the first failed write (an exception from
`stdin.write`/`drain`).  `wok n` is whether the n-th write attempt in
this call succeeds.  Returns (all writes succeeded, next write index,
log of attempted writes with their fates). -/
def replayWrites (wok : Nat → Bool) :
    List HistEntry → Nat → Bool × Nat × List (JVal × Bool)
  | [], n => (true, n, [])
  | e :: rest, n =>
    if wok n then
      let r := replayWrites wok rest (n + 1)
      (r.1, r.2.1, (encodeHistory e, true) :: r.2.2)
    else (false, n + 1, [(encodeHistory e, false)])

/-- The write phase of `execute_streaming` (client.py lines 367-443):
ensure the process is started; if `claude_needs_history` is set and the
history is non-empty, replay it (any exception is caught and logged, and
the flag is then cleared *regardless*, line 397 being outside the
`try`); write the prompt; on a `BrokenPipeError`/`OSError` discard the
handle, set the flag, restart, replay the history (unguarded: a failure
escapes), clear the flag, and retry the prompt write once (also
unguarded).  `Except.error` models an exception escaping
`execute_streaming`; the log of write attempts is returned in either
case. -/
def writePhase (wok : Nat → Bool) (history : List HistEntry)
    (prompt : String) (s0 : ProcSt) (pid1 pid2 : Nat) :
    Except Unit (ProcSt × Nat) × List (JVal × Bool) :=
  let s1 := startPersistentClaude s0 pid1
  let rp :=
    if s1.needsHistory && !history.isEmpty then
      let r := replayWrites wok history 0
      ({ s1 with needsHistory := false }, r.2.1, r.2.2)
    else (s1, 0, ([] : List (JVal × Bool)))
  let s2 := rp.1
  let n1 := rp.2.1
  let lg1 := rp.2.2
  if wok n1 then (.ok (s2, n1 + 1), lg1 ++ [(encodePrompt prompt, true)])
  else
    let s3 : ProcSt := { proc := none, needsHistory := true }
    let s4 := startPersistentClaude s3 pid2
    let lg2 := lg1 ++ [(encodePrompt prompt, false)]
    let r2 := replayWrites wok history (n1 + 1)
    if r2.1 then
      let s5 := if history.isEmpty then s4 else { s4 with needsHistory := false }
      if wok r2.2.1 then
        (.ok (s5, r2.2.1 + 1), lg2 ++ r2.2.2 ++ [(encodePrompt prompt, true)])
      else (.error (), lg2 ++ r2.2.2 ++ [(encodePrompt prompt, false)])
    else (.error (), lg2 ++ r2.2.2)

/-- `execute_streaming` end to end: the write phase, then the read loop
over the process output `lines`.  An exception escaping the write phase
aborts the call before any line is read. -/
def executeStreaming (wok : Nat → Bool) (cb : Callbacks)
    (pp : String → Option JVal) (itp : Nat → Bool)
    (history : List HistEntry) (prompt : String) (s0 : ProcSt)
    (pid1 pid2 : Nat) (lines : List RawLine) :
    Except Unit Outcome × List (JVal × Bool) × List TraceEv :=
  match writePhase wok history prompt s0 pid1 pid2 with
  | (.error e, wlog) => (.error e, wlog, [])
  | (.ok _, wlog) =>
    let r := runStream cb pp itp lines
    (r.1, wlog, r.2)

/-- The request-lifecycle state of one `WebSocketHandler`
(`processing`, `interrupted`, `current_task`), plus two
specification-only ghost fields: `ghostCurrent` is the request whose
`_process_user_message` body most recently began (the spec's "current
request"), and `delivered` logs every tool-summary message actually sent
to the client, tagged with the request whose closure sent it. -/
structure WSState where
  processing : Bool
  interrupted : Bool
  currentTask : Option Nat
  ghostCurrent : Option Nat
  delivered : List (Nat × String)
  deriving DecidableEq, Repr

/-- Observable events on one WebSocket connection. -/
inductive WSEvent where
  /-- `handle_user_message` (websocket_handler.py lines 284-298): create
  and store a new task without awaiting, cancelling, or checking the
  previous one. -/
  | newMessage : Nat → WSEvent
  /-- Entry of `_process_user_message` (lines 149-152):
  `self.processing = True; self.interrupted = False`. -/
  | beginBody : Nat → WSEvent
  /-- `handle_interrupt` (lines 300-323): set `interrupted`, kill the
  subprocess, cancel and clear the tracked task. -/
  | interruptSignal : WSEvent
  /-- A pending `_summarize_and_update` background task finishes and
  invokes the `on_tool_summary_update` closure of the request it was
  spawned by (lines 172-185): if `self.interrupted` the message is
  skipped, otherwise it is sent to the client.  No request-identity
  comparison is performed. -/
  | summaryReady : Nat → String → WSEvent
  /-- The `finally` block of `_process_user_message` (lines 280-282):
  `self.processing = False; self.current_task = None`, unconditionally. -/
  | taskFinally : WSEvent
  deriving DecidableEq, Repr

/-- One step of the handler state machine. -/
def wsStep (s : WSState) : WSEvent → WSState
  | .newMessage rid => { s with currentTask := some rid }
  | .beginBody rid =>
    { s with processing := true, interrupted := false,
             ghostCurrent := some rid }
  | .interruptSignal => { s with interrupted := true, currentTask := none }
  | .summaryReady rid summary =>
    if s.interrupted then s
    else { s with delivered := s.delivered ++ [(rid, summary)] }
  | .taskFinally => { s with processing := false, currentTask := none }

/-- Run the handler over a sequence of events. -/
def wsRun (s : WSState) (evs : List WSEvent) : WSState := evs.foldl wsStep s

/-- The handler state of a freshly connected session
(websocket_handler.py lines 39-41). -/
def wsInit : WSState := ⟨false, false, none, none, []⟩

/-- Helper: `_start_persistent_claude` never modifies
`claude_needs_history`. -/
theorem startPersistentClaude_needsHistory (s : ProcSt) (p : Nat) :
    (startPersistentClaude s p).needsHistory = s.needsHistory := by
  unfold startPersistentClaude
  cases h : s.proc with
  | none => rfl
  | some q => cases hq : q.alive <;> simp [hq]

/-- Helper: with every write succeeding, the replay writes every history
entry, in order. -/
theorem replayWrites_all_ok (wok : Nat → Bool) (hw : ∀ n, wok n = true) :
    ∀ (h : List HistEntry) (n : Nat),
      replayWrites wok h n =
        (true, n + h.length, h.map fun e => (encodeHistory e, true)) := by
  intro h
  induction h with
  | nil => intro n; simp [replayWrites]
  | cons e rest ih =>
    intro n
    simp [replayWrites, hw n, ih (n + 1)]
    omega

/-- C1 counterexample.  Two requests on one connection: request 1
begins, spawns a tool-summary background task, and is interrupted; the
user immediately sends a new message, request 2 begins and resets the
shared `interrupted` flag to `False`; request 1's pending summary task
then completes.  The claim says no callback-driven message originating
from request 1 is delivered once request 2 is current, but the only
guard is the shared boolean flag, which request 2 just reset: the stale
request-1 summary is delivered (`delivered = [(1, …)]`) while request 2
is current (`ghostCurrent = some 2`). -/
theorem c1_stale_summary_delivered :
    wsRun wsInit
        [.newMessage 1, .beginBody 1, .interruptSignal, .newMessage 2,
         .beginBody 2, .summaryReady 1 "Reading the README file"] =
      ⟨true, false, some 2, some 2, [(1, "Reading the README file")]⟩ := rfl

/-- C1 amended.  The emission guard that actually exists: a tool-summary
delivery checks the shared `self.interrupted` boolean immediately before
sending, and nothing else — while the flag is set the message is
silently dropped, and while it is clear the message is delivered
regardless of whether the originating request is still the current
one. -/
theorem c1_delivery_gated_by_interrupted_flag
    (s : WSState) (rid : Nat) (sm : String) :
    (s.interrupted = true → wsStep s (.summaryReady rid sm) = s) ∧
    (s.interrupted = false →
      (wsStep s (.summaryReady rid sm)).delivered = s.delivered ++ [(rid, sm)]) := by
  constructor <;> intro h <;> simp [wsStep, h]

/-- Witness for `c1_delivery_gated_by_interrupted_flag` at concrete
states on both sides of the flag. -/
theorem c1_delivery_gate_witness :
    wsStep ⟨true, true, none, some 1, []⟩ (.summaryReady 2 "x") =
      ⟨true, true, none, some 1, []⟩ ∧
    (wsStep ⟨true, false, none, some 1, []⟩ (.summaryReady 2 "x")).delivered =
      [] ++ [(2, "x")] :=
  ⟨(c1_delivery_gated_by_interrupted_flag ⟨true, true, none, some 1, []⟩ 2 "x").1 rfl,
   (c1_delivery_gated_by_interrupted_flag ⟨true, false, none, some 1, []⟩ 2 "x").2 rfl⟩

/-- C2 counterexample.  `_start_persistent_claude` replaces a dead
handle (pid 1, `returncode` set) with a fresh process (pid 2) without
setting `claude_needs_history`; the subsequent `execute_streaming` write
phase therefore sends the prompt with no history replay at all (the
write log holds only the prompt).  The flag is set only on the
broken-pipe path and by `interrupt_and_restart`, not "whenever a handle
is replaced". -/
theorem c2_restart_without_flag :
    startPersistentClaude ⟨some ⟨1, false⟩, false⟩ 2 = ⟨some ⟨2, true⟩, false⟩ ∧
    (writePhase (fun _ => true) [⟨"user", "hi"⟩] "go"
        ⟨some ⟨1, false⟩, false⟩ 2 3).2 = [(encodePrompt "go", true)] :=
  ⟨rfl, rfl⟩

/-- C2 amended.  When the needs-history flag *is* set (which happens on
the broken-pipe discard and in `interrupt_and_restart`, but not inside
`_start_persistent_claude`) and every write succeeds, the write phase
performs exactly the N history writes, in order, followed by the one
prompt write; and `interrupt_and_restart` always sets the flag when a
handle exists. -/
theorem c2_replay_writes_in_order (wok : Nat → Bool)
    (history : List HistEntry) (prompt : String) (s0 : ProcSt)
    (pid1 pid2 : Nat) (hw : ∀ n, wok n = true)
    (hs : s0.needsHistory = true) :
    (writePhase wok history prompt s0 pid1 pid2).2 =
      history.map (fun e => (encodeHistory e, true)) ++
        [(encodePrompt prompt, true)] ∧
    (∃ x, (writePhase wok history prompt s0 pid1 pid2).1 = .ok x) ∧
    (∀ s : ProcSt, s.proc ≠ none → (interruptAndRestart s).needsHistory = true) := by
  have key : writePhase wok history prompt s0 pid1 pid2 =
      (.ok ((if history.isEmpty then startPersistentClaude s0 pid1
             else { startPersistentClaude s0 pid1 with needsHistory := false }),
            history.length + 1),
       history.map (fun e => (encodeHistory e, true)) ++
         [(encodePrompt prompt, true)]) := by
    unfold writePhase
    cases hh : history.isEmpty with
    | true =>
      have h0 : history = [] := List.isEmpty_iff.mp hh
      subst h0
      simp [hw]
    | false =>
      simp only [startPersistentClaude_needsHistory, hs, hh, Bool.true_and,
        Bool.not_false, if_true]
      rw [replayWrites_all_ok wok hw history 0]
      simp [hw]
  refine ⟨by rw [key], ⟨_, by rw [key]⟩, ?_⟩
  intro s hp
  unfold interruptAndRestart
  cases h : s.proc with
  | none => exact absurd h hp
  | some q => rfl

/-- Witness for `c2_replay_writes_in_order` on a concrete two-entry
history with an always-succeeding stdin. -/
theorem c2_replay_writes_witness :
    (writePhase (fun _ => true) [⟨"user", "hi"⟩, ⟨"assistant", "hello"⟩]
        "go" ⟨some ⟨1, true⟩, true⟩ 5 6).2 =
      [⟨"user", "hi"⟩, ⟨"assistant", "hello"⟩].map
          (fun e => (encodeHistory e, true)) ++ [(encodePrompt "go", true)] ∧
    (∃ x, (writePhase (fun _ => true) [⟨"user", "hi"⟩, ⟨"assistant", "hello"⟩]
        "go" ⟨some ⟨1, true⟩, true⟩ 5 6).1 = .ok x) ∧
    (∀ s : ProcSt, s.proc ≠ none → (interruptAndRestart s).needsHistory = true) :=
  c2_replay_writes_in_order (fun _ => true) _ _ _ 5 6 (fun _ => rfl) rfl

/-- C3 counterexample.  The flag is set, the one-entry history replay
fails on its write (`wok 0 = false`; the exception is caught and logged
at client.py line 393), yet `claude_needs_history` ends up `false`: the
reset at line 397 sits outside the `try` and runs regardless.  The write
log shows the history entry was never successfully written, while the
prompt afterwards was. -/
theorem c3_flag_cleared_after_failed_replay :
    writePhase (fun n => n != 0) [⟨"user", "hello"⟩] "next"
        ⟨some ⟨1, true⟩, true⟩ 7 8 =
      (.ok (⟨some ⟨1, true⟩, false⟩, 2),
       [(encodeHistory ⟨"user", "hello"⟩, false), (encodePrompt "next", true)]) := rfl

/-- C3 amended.  Whenever the replay step runs (flag set, history
non-empty) and `execute_streaming`'s write phase completes without an
exception, the needs-history flag ends up cleared — regardless of
whether the replay writes succeeded.  A failed replay write is caught,
logged, and the flag is cleared anyway. -/
theorem c3_flag_cleared_regardless (wok : Nat → Bool)
    (history : List HistEntry) (prompt : String) (s0 : ProcSt)
    (pid1 pid2 : Nat) (hs : s0.needsHistory = true) (hh : history ≠ [])
    (s' : ProcSt) (n : Nat)
    (hok : (writePhase wok history prompt s0 pid1 pid2).1 = .ok (s', n)) :
    s'.needsHistory = false := by
  have hh' : history.isEmpty = false := by
    cases history with
    | nil => exact absurd rfl hh
    | cons a l => rfl
  unfold writePhase at hok
  simp only [startPersistentClaude_needsHistory, hs, hh', Bool.true_and,
    Bool.not_false, if_true] at hok
  by_cases h1 : wok (replayWrites wok history 0).2.1
  · simp only [h1, if_true] at hok
    cases hok
    rfl
  · simp only [h1, Bool.false_eq_true, if_false] at hok
    by_cases h2 : (replayWrites wok history ((replayWrites wok history 0).2.1 + 1)).1
    · simp only [h2, if_true, hh'] at hok
      by_cases h3 :
          wok (replayWrites wok history ((replayWrites wok history 0).2.1 + 1)).2.1
      · simp only [h3, if_true] at hok
        cases hok
        rfl
      · simp only [h3, Bool.false_eq_true, if_false] at hok
        cases hok
    · simp only [h2, Bool.false_eq_true, if_false] at hok
      cases hok

/-- Witness for `c3_flag_cleared_regardless` at the concrete failing
replay of `c3_flag_cleared_after_failed_replay`'s scenario (written with
a different prompt so the two statements differ). -/
theorem c3_flag_cleared_witness :
    (writePhase (fun n => n != 0) [⟨"user", "hey"⟩] "again"
        ⟨some ⟨1, true⟩, true⟩ 7 8).1 =
      .ok (⟨some ⟨1, true⟩, false⟩, 2) ∧
    (⟨some ⟨1, true⟩, false⟩ : ProcSt).needsHistory = false :=
  ⟨rfl,
   c3_flag_cleared_regardless (fun n => n != 0) [⟨"user", "hey"⟩] "again"
     ⟨some ⟨1, true⟩, true⟩ 7 8 rfl (by simp) ⟨some ⟨1, true⟩, false⟩ 2 rfl⟩

/-- C4 counterexample.  Fresh client (no handle, flag clear), empty
history; the prompt write hits a broken pipe, the client restarts and
retries once, and the retry write fails too.  The retry at client.py
lines 441-443 is not inside any `try`, so the second failure escapes
`execute_streaming` as an exception (`Except.error`), not as a
structured `success=False` outcome.  The write log shows exactly the two
prompt attempts. -/
theorem c4_second_failure_raises :
    executeStreaming (fun _ => false) ⟨true, true, true, true, true⟩
        (fun _ => none) (fun _ => false) [] "hello" ⟨none, false⟩ 1 2 [] =
      (.error (),
       [(encodePrompt "hello", false), (encodePrompt "hello", false)], []) := rfl

/-- C4 amended.  On a broken-pipe/OS error while writing the prompt,
`execute_streaming` performs exactly one automatic restart-and-retry
(the log shows exactly two attempts of the same prompt envelope); if the
retried write fails as well, the failure propagates to the caller as an
exception, not as a failed outcome. -/
theorem c4_all_writes_fail_exception (cb : Callbacks)
    (pp : String → Option JVal) (itp : Nat → Bool) (wok : Nat → Bool)
    (history : List HistEntry) (prompt : String) (s0 : ProcSt)
    (pid1 pid2 : Nat) (lines : List RawLine)
    (hw : ∀ n, wok n = false) (hh : history = []) :
    executeStreaming wok cb pp itp history prompt s0 pid1 pid2 lines =
      (.error (), [(encodePrompt prompt, false), (encodePrompt prompt, false)],
       []) := by
  subst hh
  unfold executeStreaming writePhase
  simp [replayWrites, hw]

/-- Witness for `c4_all_writes_fail_exception` at a concrete client
state with a live process handle. -/
theorem c4_all_writes_fail_witness :
    executeStreaming (fun _ => false) ⟨true, false, true, false, true⟩
        (fun _ => none) (fun _ => false) [] "ls please" ⟨some ⟨3, true⟩, true⟩
        4 5 [.blank] =
      (.error (),
       [(encodePrompt "ls please", false), (encodePrompt "ls please", false)],
       []) :=
  c4_all_writes_fail_exception ⟨true, false, true, false, true⟩ (fun _ => none)
    (fun _ => false) (fun _ => false) [] "ls please" ⟨some ⟨3, true⟩, true⟩ 4 5
    [.blank] (fun _ => rfl) rfl

/-- C6 counterexample.  Request 1's task begins, request 2 arrives and
its handle replaces request 1's as `current_task`, request 2's body
begins (it is now the spec's "current" request, `ghostCurrent = some
2`); then request 1's body reaches its `finally` block — which
unconditionally sets `current_task = None`, clobbering request 2's
stored handle instead of leaving the newer state untouched. -/
theorem c6_finally_clobbers_newer_task :
    wsRun wsInit
        [.newMessage 1, .beginBody 1, .newMessage 2, .beginBody 2,
         .taskFinally] =
      ⟨false, false, none, some 2, []⟩ := rfl

/-- C6 amended.  The `finally` block of `_process_user_message` clears
`processing` and `current_task` unconditionally when any task completes:
after any event sequence ending in a task completion, the tracked task
handle is `None` and `processing` is `False`, even when a newer request
had stored its own handle in between. -/
theorem c6_finally_unconditional (s : WSState) (evs : List WSEvent) :
    (wsRun s (evs ++ [.taskFinally])).currentTask = none ∧
    (wsRun s (evs ++ [.taskFinally])).processing = false := by
  unfold wsRun
  rw [List.foldl_append]
  exact ⟨rfl, rfl⟩

/-- Number of interruption checks recorded in a trace. -/
def checksIn : List TraceEv → Nat
  | [] => 0
  | .check _ :: r => checksIn r + 1
  | _ :: r => checksIn r

/-- No interruption check in the trace returned true. -/
def noTrueCheck : List TraceEv → Bool
  | [] => true
  | .check true :: _ => false
  | _ :: r => noTrueCheck r

/-- Once an interruption check returns true, nothing further happens:
any `check true` is the last element of the trace. -/
def cleanAfterTrue : List TraceEv → Bool
  | [] => true
  | .check true :: r => r.isEmpty
  | _ :: r => cleanAfterTrue r

/-- At most one `readline` happens between consecutive interruption
checks (the flag records whether a read has occurred since the last
check). -/
def readsLE1Aux : Bool → List TraceEv → Bool
  | _, [] => true
  | _, .check _ :: r => readsLE1Aux false r
  | true, .readLine :: _ => false
  | false, .readLine :: r => readsLE1Aux true r
  | f, _ :: r => readsLE1Aux f r

/-- The `tool_calls.append` events of a trace, in order. -/
def recordsOf : List TraceEv → List ToolCall
  | [] => []
  | .record tc :: r => tc :: recordsOf r
  | _ :: r => recordsOf r

/-- The callback-invocation events of a trace (checks and reads
filtered out). -/
def emitsOf : List TraceEv → List TraceEv
  | [] => []
  | .check _ :: r => emitsOf r
  | .readLine :: r => emitsOf r
  | e :: r => e :: emitsOf r

/-- Texts of the streaming (`is_final=False`) `on_text_block`
invocations of a trace, in order. -/
def nonFinalTexts : List TraceEv → List String
  | [] => []
  | .textBlock s false :: r => s :: nonFinalTexts r
  | _ :: r => nonFinalTexts r

/-- Texts of the `is_final=True` `on_text_block` re-invocations. -/
def finalTexts : List TraceEv → List String
  | [] => []
  | .textBlock s true :: r => s :: finalTexts r
  | _ :: r => finalTexts r

/-- `lastUpd new old` is the value of `last_text_block_callback`'s text
after the blocks in `new` have been sent on top of a previous value
`old`. -/
def lastUpd : List String → Option String → Option String
  | [], old => old
  | x :: l, _ => lastUpd l (some x)

theorem checksIn_append (a b : List TraceEv) :
    checksIn (a ++ b) = checksIn a + checksIn b := by
  induction a with
  | nil => simp [checksIn]
  | cons e r ih =>
    cases e <;> simp [checksIn, ih]
    omega

theorem noTrueCheck_append (a b : List TraceEv) :
    noTrueCheck (a ++ b) = (noTrueCheck a && noTrueCheck b) := by
  induction a with
  | nil => simp [noTrueCheck]
  | cons e r ih =>
    cases e with
    | check v => cases v <;> simp [noTrueCheck, ih]
    | _ => simp [noTrueCheck, ih]

theorem cleanAfterTrue_of_noTrue (a : List TraceEv)
    (h : noTrueCheck a = true) : cleanAfterTrue a = true := by
  induction a with
  | nil => rfl
  | cons e r ih =>
    cases e with
    | check v =>
      cases v with
      | true => simp [noTrueCheck] at h
      | false => exact ih (by simpa [noTrueCheck] using h)
    | _ =>
      simp only [noTrueCheck] at h
      simpa [cleanAfterTrue] using ih h

theorem cleanAfterTrue_append (a b : List TraceEv)
    (ha : noTrueCheck a = true) (hb : cleanAfterTrue b = true) :
    cleanAfterTrue (a ++ b) = true := by
  induction a with
  | nil => simpa using hb
  | cons e r ih =>
    cases e with
    | check v =>
      cases v with
      | true => simp [noTrueCheck] at ha
      | false =>
        simp only [noTrueCheck] at ha
        simpa [cleanAfterTrue] using ih ha
    | _ =>
      simp only [noTrueCheck] at ha
      simpa [cleanAfterTrue] using ih ha

theorem readsLE1Aux_append (a b : List TraceEv) (f : Bool)
    (h1 : readsLE1Aux f a = true) (h2 : ∀ g, readsLE1Aux g b = true) :
    readsLE1Aux f (a ++ b) = true := by
  induction a generalizing f with
  | nil => simpa using h2 f
  | cons e r ih =>
    cases e with
    | check v =>
      simp only [List.cons_append, readsLE1Aux] at h1 ⊢
      exact ih false h1
    | readLine =>
      cases f with
      | true => simp [readsLE1Aux] at h1
      | false =>
        simp only [List.cons_append, readsLE1Aux] at h1 ⊢
        exact ih true h1
    | record tc =>
      cases f <;> simp only [List.cons_append, readsLE1Aux] at h1 ⊢ <;>
        exact ih _ h1
    | textBlock s fl =>
      cases f <;> simp only [List.cons_append, readsLE1Aux] at h1 ⊢ <;>
        exact ih _ h1
    | toolUse n i s =>
      cases f <;> simp only [List.cons_append, readsLE1Aux] at h1 ⊢ <;>
        exact ih _ h1
    | spawnSummary n i =>
      cases f <;> simp only [List.cons_append, readsLE1Aux] at h1 ⊢ <;>
        exact ih _ h1
    | toolInputProgress x y z =>
      cases f <;> simp only [List.cons_append, readsLE1Aux] at h1 ⊢ <;>
        exact ih _ h1
    | thinking t =>
      cases f <;> simp only [List.cons_append, readsLE1Aux] at h1 ⊢ <;>
        exact ih _ h1

theorem recordsOf_append (a b : List TraceEv) :
    recordsOf (a ++ b) = recordsOf a ++ recordsOf b := by
  induction a with
  | nil => simp [recordsOf]
  | cons e r ih => cases e <;> simp [recordsOf, ih]

theorem emitsOf_append (a b : List TraceEv) :
    emitsOf (a ++ b) = emitsOf a ++ emitsOf b := by
  induction a with
  | nil => simp [emitsOf]
  | cons e r ih => cases e <;> simp [emitsOf, ih]

theorem nonFinalTexts_append (a b : List TraceEv) :
    nonFinalTexts (a ++ b) = nonFinalTexts a ++ nonFinalTexts b := by
  induction a with
  | nil => simp [nonFinalTexts]
  | cons e r ih =>
    cases e with
    | textBlock s fl => cases fl <;> simp [nonFinalTexts, ih]
    | _ => simp [nonFinalTexts, ih]

theorem finalTexts_append (a b : List TraceEv) :
    finalTexts (a ++ b) = finalTexts a ++ finalTexts b := by
  induction a with
  | nil => simp [finalTexts]
  | cons e r ih =>
    cases e with
    | textBlock s fl => cases fl <;> simp [finalTexts, ih]
    | _ => simp [finalTexts, ih]

theorem lastUpd_append (a b : List String) (old : Option String) :
    lastUpd (a ++ b) old = lastUpd b (lastUpd a old) := by
  induction a generalizing old with
  | nil => simp [lastUpd]
  | cons x l ih => simp [lastUpd, ih]

theorem procItems_toolCalls (cb : Callbacks) (itp : Nat → Bool) :
    ∀ (items : List JVal) (st : LoopState) (t : Nat),
      (procItems cb itp items st t).st.toolCalls =
        st.toolCalls ++ recordsOf (procItems cb itp items st t).tr := by
  intro items
  induction items with
  | nil => intro st t; simp [procItems, recordsOf]
  | cons item rest ih =>
    intro st t
    cases item
    case jobj fs =>
      simp only [procItems]
      split
      · split
        · simp [recordsOf]
        · split
          · split
            · simp [recordsOf]
            · simp [recordsOf, ih]
          · simp [recordsOf, ih]
      · split
        · split
          · simp [recordsOf]
          · simp [recordsOf, ih, List.append_assoc]
        · simp [recordsOf, ih, List.append_assoc]
      · simp [recordsOf, ih]
    all_goals simp [procItems, recordsOf]

theorem procItems_sent (cb : Callbacks) (itp : Nat → Bool) :
    ∀ (items : List JVal) (st : LoopState) (t : Nat),
      (procItems cb itp items st t).st.sentTextBlocks =
        st.sentTextBlocks ++ nonFinalTexts (procItems cb itp items st t).tr := by
  intro items
  induction items with
  | nil => intro st t; simp [procItems, nonFinalTexts]
  | cons item rest ih =>
    intro st t
    cases item
    case jobj fs =>
      simp only [procItems]
      split
      · split
        · simp [nonFinalTexts]
        · split
          · split
            · simp [nonFinalTexts]
            · simp [nonFinalTexts, ih, List.append_assoc]
          · simp [nonFinalTexts, ih]
      · split
        · split
          · simp [nonFinalTexts]
          · simp [nonFinalTexts, ih]
        · simp [nonFinalTexts, ih]
      · simp [nonFinalTexts, ih]
    all_goals simp [procItems, nonFinalTexts]

theorem procItems_last (cb : Callbacks) (itp : Nat → Bool) :
    ∀ (items : List JVal) (st : LoopState) (t : Nat),
      (procItems cb itp items st t).st.lastTextBlock =
        lastUpd (nonFinalTexts (procItems cb itp items st t).tr)
          st.lastTextBlock := by
  intro items
  induction items with
  | nil => intro st t; simp [procItems, nonFinalTexts, lastUpd]
  | cons item rest ih =>
    intro st t
    cases item
    case jobj fs =>
      simp only [procItems]
      split
      · split
        · simp [nonFinalTexts, lastUpd]
        · split
          · split
            · simp [nonFinalTexts, lastUpd]
            · simp [nonFinalTexts, lastUpd, ih]
          · simp [nonFinalTexts, lastUpd, ih]
      · split
        · split
          · simp [nonFinalTexts, lastUpd]
          · simp [nonFinalTexts, lastUpd, ih]
        · simp [nonFinalTexts, lastUpd, ih]
      · simp [nonFinalTexts, lastUpd, ih]
    all_goals simp [procItems, nonFinalTexts, lastUpd]

theorem procItems_finalTexts (cb : Callbacks) (itp : Nat → Bool) :
    ∀ (items : List JVal) (st : LoopState) (t : Nat),
      finalTexts (procItems cb itp items st t).tr = [] := by
  intro items
  induction items with
  | nil => intro st t; simp [procItems, finalTexts]
  | cons item rest ih =>
    intro st t
    cases item
    case jobj fs =>
      simp only [procItems]
      split
      · split
        · simp [finalTexts]
        · split
          · split
            · simp [finalTexts]
            · simp [finalTexts, ih]
          · simp [finalTexts, ih]
      · split
        · split
          · simp [finalTexts]
          · simp [finalTexts, ih]
        · simp [finalTexts, ih]
      · simp [finalTexts, ih]
    all_goals simp [procItems, finalTexts]

theorem procItems_rle (cb : Callbacks) (itp : Nat → Bool) :
    ∀ (items : List JVal) (st : LoopState) (t : Nat) (g : Bool),
      readsLE1Aux g (procItems cb itp items st t).tr = true := by
  intro items
  induction items with
  | nil => intro st t g; simp [procItems, readsLE1Aux]
  | cons item rest ih =>
    intro st t g
    cases item
    case jobj fs =>
      simp only [procItems]
      split
      · split
        · cases g <;> simp [readsLE1Aux]
        · split
          · split
            · cases g <;> simp [readsLE1Aux]
            · cases g <;> simp [readsLE1Aux, ih]
          · cases g <;> simp [readsLE1Aux, ih]
      · split
        · split
          · cases g <;> simp [readsLE1Aux]
          · cases g <;> simp [readsLE1Aux, ih]
        · cases g <;> simp [readsLE1Aux, ih]
      · cases g <;> simp [readsLE1Aux, ih]
    all_goals cases g <;> simp [procItems, readsLE1Aux]

theorem procItems_clean (cb : Callbacks) (itp : Nat → Bool) :
    ∀ (items : List JVal) (st : LoopState) (t : Nat),
      (procItems cb itp items st t).intr = true →
      cleanAfterTrue (procItems cb itp items st t).tr = true := by
  intro items
  induction items with
  | nil => intro st t h; simp [procItems] at h
  | cons item rest ih =>
    intro st t
    cases item
    case jobj fs =>
      simp only [procItems]
      split
      · split
        · intro h; simp at h
        · split
          · split
            · intro h; simp [cleanAfterTrue]
            · intro h
              simp only at h
              simp only [cleanAfterTrue]
              exact ih _ _ h
          · exact ih _ _
      · split
        · split
          · intro h; simp [cleanAfterTrue]
          · intro h
            simp only at h
            simp only [cleanAfterTrue]
            exact ih _ _ h
        · intro h
          simp only at h
          simp only [cleanAfterTrue]
          exact ih _ _ h
      · exact ih _ _
    all_goals intro h; simp [procItems] at h

theorem procItems_noTrue (cb : Callbacks) (itp : Nat → Bool) :
    ∀ (items : List JVal) (st : LoopState) (t : Nat),
      (procItems cb itp items st t).intr = false →
      noTrueCheck (procItems cb itp items st t).tr = true := by
  intro items
  induction items with
  | nil => intro st t _; simp [procItems, noTrueCheck]
  | cons item rest ih =>
    intro st t
    cases item
    case jobj fs =>
      simp only [procItems]
      split
      · split
        · intro _; simp [noTrueCheck]
        · split
          · split
            · intro h; simp at h
            · intro h
              simp only at h
              simp only [noTrueCheck]
              exact ih _ _ h
          · exact ih _ _
      · split
        · split
          · intro h; simp at h
          · intro h
            simp only at h
            simp only [noTrueCheck]
            exact ih _ _ h
        · intro h
          simp only at h
          simp only [noTrueCheck]
          exact ih _ _ h
      · exact ih _ _
    all_goals intro _; simp [procItems, noTrueCheck]

theorem procItems_checksIn (cb : Callbacks) (itp : Nat → Bool) :
    ∀ (items : List JVal) (st : LoopState) (t : Nat),
      checksIn (procItems cb itp items st t).tr =
        (procItems cb itp items st t).ticks := by
  intro items
  induction items with
  | nil => intro st t; simp [procItems, checksIn]
  | cons item rest ih =>
    intro st t
    cases item
    case jobj fs =>
      simp only [procItems]
      split
      · split
        · simp [checksIn]
        · split
          · split
            · simp [checksIn]
            · simp [checksIn, ih]; omega
          · simp [checksIn, ih]
      · split
        · split
          · simp [checksIn]
          · simp [checksIn, ih]; omega
        · simp [checksIn, ih]
      · simp [checksIn, ih]
    all_goals simp [procItems, checksIn]

theorem procItems_mono (cb : Callbacks) (k : Nat) :
    ∀ (items : List JVal) (st : LoopState) (t : Nat),
      (procItems cb (fun n => decide (k ≤ n)) items st t).intr = false →
      (procItems cb (fun n => decide (k ≤ n)) items st t).ticks = 0 ∨
        t + (procItems cb (fun n => decide (k ≤ n)) items st t).ticks ≤ k := by
  intro items
  induction items with
  | nil => intro st t _; left; simp [procItems]
  | cons item rest ih =>
    intro st t
    cases item
    case jobj fs =>
      simp only [procItems]
      split
      · split
        · intro _; left; simp
        · split
          · split
            case isTrue ht => intro h; simp at h
            case isFalse ht =>
              intro h
              simp only at h
              have ht' : t < k := by
                have := (Nat.not_le).mp (by simpa using ht)
                omega
              simp only
              rcases ih _ _ h with h0 | hle
              · right; omega
              · right; omega
          · exact ih _ _
      · split
        · split
          case isTrue ht => intro h; simp at h
          case isFalse ht =>
            intro h
            simp only at h
            have ht' : t < k := by
              have := (Nat.not_le).mp (by simpa using ht)
              omega
            simp only
            rcases ih _ _ h with h0 | hle
            · right; omega
            · right; omega
        · exact ih _ _
      · exact ih _ _
    all_goals intro _; left; simp [procItems]

/-- The loop state carried by an iteration result. -/
def iterSt : IterRes → LoopState
  | .iInterrupted st _ => st
  | .iGot _ st _ => st
  | .iCont st _ _ => st

/-- The trace produced by an iteration result. -/
def iterTr : IterRes → List TraceEv
  | .iInterrupted _ tr => tr
  | .iGot _ _ tr => tr
  | .iCont _ tr _ => tr

/-- Whether the iteration ended because a check returned true. -/
def isIterIntr : IterRes → Bool
  | .iInterrupted _ _ => true
  | _ => false

/-- The number of interruption checks an iteration consumed. -/
def iterTicks : IterRes → Nat
  | .iCont _ _ c => c
  | r => checksIn (iterTr r)

theorem assistantWrap_st (r : ItemsOut) : iterSt (assistantWrap r) = r.st := by
  unfold assistantWrap; split <;> rfl

theorem assistantWrap_tr (r : ItemsOut) : iterTr (assistantWrap r) = r.tr := by
  unfold assistantWrap; split <;> rfl

theorem assistantWrap_intr (r : ItemsOut) :
    isIterIntr (assistantWrap r) = r.intr := by
  unfold assistantWrap
  split
  case isTrue h => simp [isIterIntr, h]
  case isFalse h =>
    rw [Bool.not_eq_true] at h
    simp [isIterIntr, h]

theorem handleDelta_st (cb : Callbacks) (pp : String → Option JVal)
    (itp : Nat → Bool) (v : JVal) (st : LoopState) (u : Nat) :
    iterSt (handleDelta cb pp itp v st u) = st := by
  unfold handleDelta
  simp only []
  repeat' split
  all_goals rfl

theorem handleDelta_tr (cb : Callbacks) (pp : String → Option JVal)
    (itp : Nat → Bool) (v : JVal) (st : LoopState) (u : Nat) :
    recordsOf (iterTr (handleDelta cb pp itp v st u)) = [] ∧
    nonFinalTexts (iterTr (handleDelta cb pp itp v st u)) = [] ∧
    finalTexts (iterTr (handleDelta cb pp itp v st u)) = [] := by
  unfold handleDelta
  simp only []
  repeat' split
  all_goals simp [iterTr, recordsOf, nonFinalTexts, finalTexts]

theorem handleDelta_rle (cb : Callbacks) (pp : String → Option JVal)
    (itp : Nat → Bool) (v : JVal) (st : LoopState) (u : Nat) (g : Bool) :
    readsLE1Aux g (iterTr (handleDelta cb pp itp v st u)) = true := by
  unfold handleDelta
  simp only []
  repeat' split
  all_goals cases g <;> simp [iterTr, readsLE1Aux]

theorem handleDelta_clean (cb : Callbacks) (pp : String → Option JVal)
    (itp : Nat → Bool) (v : JVal) (st : LoopState) (u : Nat) :
    (isIterIntr (handleDelta cb pp itp v st u) = true →
      cleanAfterTrue (iterTr (handleDelta cb pp itp v st u)) = true) ∧
    (isIterIntr (handleDelta cb pp itp v st u) = false →
      noTrueCheck (iterTr (handleDelta cb pp itp v st u)) = true) := by
  unfold handleDelta
  simp only []
  repeat' split
  all_goals constructor <;> intro h <;>
    simp_all [iterTr, isIterIntr, cleanAfterTrue, noTrueCheck]

theorem handleDelta_checksIn (cb : Callbacks) (pp : String → Option JVal)
    (itp : Nat → Bool) (v : JVal) (st : LoopState) (u : Nat) :
    checksIn (iterTr (handleDelta cb pp itp v st u)) =
      iterTicks (handleDelta cb pp itp v st u) := by
  unfold handleDelta
  simp only []
  repeat' split
  all_goals simp [iterTr, iterTicks, checksIn]

theorem dispatch_toolCalls (cb : Callbacks) (pp : String → Option JVal)
    (itp : Nat → Bool) (v : JVal) (st : LoopState) (u : Nat) :
    (iterSt (dispatchEvent cb pp itp v st u)).toolCalls =
      st.toolCalls ++ recordsOf (iterTr (dispatchEvent cb pp itp v st u)) := by
  unfold dispatchEvent
  split
  · simp [iterSt, iterTr, recordsOf]
  · simp [assistantWrap_st, assistantWrap_tr, procItems_toolCalls]
  · simp [handleDelta_st, (handleDelta_tr cb pp itp v st u).1]
  · split <;> simp [iterSt, iterTr, recordsOf]
  · simp [iterSt, iterTr, recordsOf]

theorem dispatch_sent (cb : Callbacks) (pp : String → Option JVal)
    (itp : Nat → Bool) (v : JVal) (st : LoopState) (u : Nat) :
    (iterSt (dispatchEvent cb pp itp v st u)).sentTextBlocks =
      st.sentTextBlocks ++
        nonFinalTexts (iterTr (dispatchEvent cb pp itp v st u)) := by
  unfold dispatchEvent
  split
  · simp [iterSt, iterTr, nonFinalTexts]
  · simp [assistantWrap_st, assistantWrap_tr, procItems_sent]
  · simp [handleDelta_st, (handleDelta_tr cb pp itp v st u).2.1]
  · split <;> simp [iterSt, iterTr, nonFinalTexts]
  · simp [iterSt, iterTr, nonFinalTexts]

theorem dispatch_last (cb : Callbacks) (pp : String → Option JVal)
    (itp : Nat → Bool) (v : JVal) (st : LoopState) (u : Nat) :
    (iterSt (dispatchEvent cb pp itp v st u)).lastTextBlock =
      lastUpd (nonFinalTexts (iterTr (dispatchEvent cb pp itp v st u)))
        st.lastTextBlock := by
  unfold dispatchEvent
  split
  · simp [iterSt, iterTr, nonFinalTexts, lastUpd]
  · simp [assistantWrap_st, assistantWrap_tr, procItems_last]
  · simp [handleDelta_st, (handleDelta_tr cb pp itp v st u).2.1, lastUpd]
  · split <;> simp [iterSt, iterTr, nonFinalTexts, lastUpd]
  · simp [iterSt, iterTr, nonFinalTexts, lastUpd]

theorem dispatch_finalTexts (cb : Callbacks) (pp : String → Option JVal)
    (itp : Nat → Bool) (v : JVal) (st : LoopState) (u : Nat) :
    finalTexts (iterTr (dispatchEvent cb pp itp v st u)) = [] := by
  unfold dispatchEvent
  split
  · simp [iterTr, finalTexts]
  · simp [assistantWrap_tr, procItems_finalTexts]
  · exact (handleDelta_tr cb pp itp v st u).2.2
  · split <;> simp [iterTr, finalTexts]
  · simp [iterTr, finalTexts]

theorem dispatch_rle (cb : Callbacks) (pp : String → Option JVal)
    (itp : Nat → Bool) (v : JVal) (st : LoopState) (u : Nat) (g : Bool) :
    readsLE1Aux g (iterTr (dispatchEvent cb pp itp v st u)) = true := by
  unfold dispatchEvent
  split
  · cases g <;> simp [iterTr, readsLE1Aux]
  · simp [assistantWrap_tr, procItems_rle]
  · exact handleDelta_rle cb pp itp v st u g
  · split <;> cases g <;> simp [iterTr, readsLE1Aux]
  · cases g <;> simp [iterTr, readsLE1Aux]

theorem dispatch_clean (cb : Callbacks) (pp : String → Option JVal)
    (itp : Nat → Bool) (v : JVal) (st : LoopState) (u : Nat) :
    (isIterIntr (dispatchEvent cb pp itp v st u) = true →
      cleanAfterTrue (iterTr (dispatchEvent cb pp itp v st u)) = true) ∧
    (isIterIntr (dispatchEvent cb pp itp v st u) = false →
      noTrueCheck (iterTr (dispatchEvent cb pp itp v st u)) = true) := by
  unfold dispatchEvent
  split
  · constructor <;> intro h <;> simp_all [iterTr, isIterIntr, noTrueCheck]
  · constructor <;> intro h <;>
      simp_all [assistantWrap_tr, assistantWrap_intr, procItems_clean,
        procItems_noTrue]
  · exact handleDelta_clean cb pp itp v st u
  · split <;> constructor <;> intro h <;>
      simp_all [iterTr, isIterIntr, cleanAfterTrue, noTrueCheck]
  · constructor <;> intro h <;> simp_all [iterTr, isIterIntr, noTrueCheck]

theorem dispatch_checksIn (cb : Callbacks) (pp : String → Option JVal)
    (itp : Nat → Bool) (v : JVal) (st : LoopState) (u : Nat) :
    checksIn (iterTr (dispatchEvent cb pp itp v st u)) =
      iterTicks (dispatchEvent cb pp itp v st u) := by
  unfold dispatchEvent
  split
  · simp [iterTr, iterTicks, checksIn]
  · unfold assistantWrap
    split <;> simp [iterTr, iterTicks, checksIn, procItems_checksIn]
  · exact handleDelta_checksIn cb pp itp v st u
  · split <;> simp [iterTr, iterTicks, checksIn]
  · simp [iterTr, iterTicks, checksIn]

theorem handleDelta_mono (cb : Callbacks) (pp : String → Option JVal)
    (k : Nat) (v : JVal) (st : LoopState) (u : Nat) :
    isIterIntr (handleDelta cb pp (fun n => decide (k ≤ n)) v st u) = false →
    iterTicks (handleDelta cb pp (fun n => decide (k ≤ n)) v st u) = 0 ∨
      u + iterTicks (handleDelta cb pp (fun n => decide (k ≤ n)) v st u) ≤ k := by
  unfold handleDelta
  simp only []
  repeat' split
  all_goals intro h
  all_goals simp_all [isIterIntr, iterTicks, iterTr, checksIn]
  all_goals omega

theorem dispatch_mono (cb : Callbacks) (pp : String → Option JVal)
    (k : Nat) (v : JVal) (st : LoopState) (u : Nat) :
    isIterIntr (dispatchEvent cb pp (fun n => decide (k ≤ n)) v st u) = false →
    iterTicks (dispatchEvent cb pp (fun n => decide (k ≤ n)) v st u) = 0 ∨
      u + iterTicks (dispatchEvent cb pp (fun n => decide (k ≤ n)) v st u) ≤ k := by
  unfold dispatchEvent
  split
  · intro _; left; rfl
  · rw [assistantWrap_intr]
    intro h
    rw [assistantWrap]
    simp only [h, Bool.false_eq_true, if_false]
    rcases procItems_mono cb k (contentItems v) st u h with h0 | hle
    · left; simpa [iterTicks] using h0
    · right; simpa [iterTicks] using hle
  · exact handleDelta_mono cb pp k v st u
  · split
    case isTrue ht => intro h; simp [isIterIntr] at h
    case isFalse ht =>
      intro _
      right
      have ht' : ¬ k ≤ u := by simpa using ht
      simp only [iterTicks, iterTr, checksIn]
      omega
  · intro _; left; rfl

theorem processLine_toolCalls (cb : Callbacks) (pp : String → Option JVal)
    (itp : Nat → Bool) (l : RawLine) (st : LoopState) (t : Nat) :
    (iterSt (processLine cb pp itp l st t)).toolCalls =
      st.toolCalls ++ recordsOf (iterTr (processLine cb pp itp l st t)) := by
  unfold processLine
  split
  · simp [iterSt, iterTr, recordsOf]
  · cases l with
    | blank => simp [iterSt, iterTr, recordsOf]
    | malformed =>
      by_cases h2 : itp (t + 1) = true <;> simp [h2, iterSt, iterTr, recordsOf]
    | json v =>
      by_cases h2 : itp (t + 1) = true
      · simp [h2, iterSt, iterTr, recordsOf]
      · by_cases h3 : itp (t + 2) = true
        · simp [h2, h3, iterSt, iterTr, recordsOf]
        · have hd := dispatch_toolCalls cb pp itp v st (t + 3)
          cases hdd : dispatchEvent cb pp itp v st (t + 3) with
          | iInterrupted st' tr =>
            rw [hdd] at hd
            simp only [iterSt, iterTr] at hd
            simp [h2, h3, hdd, iterSt, iterTr, recordsOf_append, recordsOf, hd]
          | iGot w st' tr =>
            rw [hdd] at hd
            simp only [iterSt, iterTr] at hd
            simp [h2, h3, hdd, iterSt, iterTr, recordsOf_append, recordsOf, hd]
          | iCont st' tr c =>
            rw [hdd] at hd
            simp only [iterSt, iterTr] at hd
            simp [h2, h3, hdd, iterSt, iterTr, recordsOf_append, recordsOf, hd]

theorem processLine_sent (cb : Callbacks) (pp : String → Option JVal)
    (itp : Nat → Bool) (l : RawLine) (st : LoopState) (t : Nat) :
    (iterSt (processLine cb pp itp l st t)).sentTextBlocks =
      st.sentTextBlocks ++
        nonFinalTexts (iterTr (processLine cb pp itp l st t)) := by
  unfold processLine
  split
  · simp [iterSt, iterTr, nonFinalTexts]
  · cases l with
    | blank => simp [iterSt, iterTr, nonFinalTexts]
    | malformed =>
      by_cases h2 : itp (t + 1) = true <;>
        simp [h2, iterSt, iterTr, nonFinalTexts]
    | json v =>
      by_cases h2 : itp (t + 1) = true
      · simp [h2, iterSt, iterTr, nonFinalTexts]
      · by_cases h3 : itp (t + 2) = true
        · simp [h2, h3, iterSt, iterTr, nonFinalTexts]
        · have hd := dispatch_sent cb pp itp v st (t + 3)
          cases hdd : dispatchEvent cb pp itp v st (t + 3) with
          | iInterrupted st' tr =>
            rw [hdd] at hd
            simp only [iterSt, iterTr] at hd
            simp [h2, h3, hdd, iterSt, iterTr, nonFinalTexts_append, nonFinalTexts, hd]
          | iGot w st' tr =>
            rw [hdd] at hd
            simp only [iterSt, iterTr] at hd
            simp [h2, h3, hdd, iterSt, iterTr, nonFinalTexts_append, nonFinalTexts, hd]
          | iCont st' tr c =>
            rw [hdd] at hd
            simp only [iterSt, iterTr] at hd
            simp [h2, h3, hdd, iterSt, iterTr, nonFinalTexts_append, nonFinalTexts, hd]

theorem processLine_last (cb : Callbacks) (pp : String → Option JVal)
    (itp : Nat → Bool) (l : RawLine) (st : LoopState) (t : Nat) :
    (iterSt (processLine cb pp itp l st t)).lastTextBlock =
      lastUpd (nonFinalTexts (iterTr (processLine cb pp itp l st t)))
        st.lastTextBlock := by
  unfold processLine
  split
  · simp [iterSt, iterTr, nonFinalTexts, lastUpd]
  · cases l with
    | blank => simp [iterSt, iterTr, nonFinalTexts, lastUpd]
    | malformed =>
      by_cases h2 : itp (t + 1) = true <;>
        simp [h2, iterSt, iterTr, nonFinalTexts, lastUpd]
    | json v =>
      by_cases h2 : itp (t + 1) = true
      · simp [h2, iterSt, iterTr, nonFinalTexts, lastUpd]
      · by_cases h3 : itp (t + 2) = true
        · simp [h2, h3, iterSt, iterTr, nonFinalTexts, lastUpd]
        · have hd := dispatch_last cb pp itp v st (t + 3)
          cases hdd : dispatchEvent cb pp itp v st (t + 3) with
          | iInterrupted st' tr =>
            rw [hdd] at hd
            simp only [iterSt, iterTr] at hd
            simp [h2, h3, hdd, iterSt, iterTr, nonFinalTexts_append, nonFinalTexts, hd]
          | iGot w st' tr =>
            rw [hdd] at hd
            simp only [iterSt, iterTr] at hd
            simp [h2, h3, hdd, iterSt, iterTr, nonFinalTexts_append, nonFinalTexts, hd]
          | iCont st' tr c =>
            rw [hdd] at hd
            simp only [iterSt, iterTr] at hd
            simp [h2, h3, hdd, iterSt, iterTr, nonFinalTexts_append, nonFinalTexts, hd]

theorem processLine_finalTexts (cb : Callbacks) (pp : String → Option JVal)
    (itp : Nat → Bool) (l : RawLine) (st : LoopState) (t : Nat) :
    finalTexts (iterTr (processLine cb pp itp l st t)) = [] := by
  unfold processLine
  split
  · simp [iterTr, finalTexts]
  · cases l with
    | blank => simp [iterTr, finalTexts]
    | malformed =>
      by_cases h2 : itp (t + 1) = true <;> simp [h2, iterTr, finalTexts]
    | json v =>
      by_cases h2 : itp (t + 1) = true
      · simp [h2, iterTr, finalTexts]
      · by_cases h3 : itp (t + 2) = true
        · simp [h2, h3, iterTr, finalTexts]
        · have hd := dispatch_finalTexts cb pp itp v st (t + 3)
          cases hdd : dispatchEvent cb pp itp v st (t + 3) with
          | iInterrupted st' tr =>
            rw [hdd] at hd
            simp only [iterTr] at hd
            simp [h2, h3, hdd, iterTr, finalTexts_append, finalTexts, hd]
          | iGot w st' tr =>
            rw [hdd] at hd
            simp only [iterTr] at hd
            simp [h2, h3, hdd, iterTr, finalTexts_append, finalTexts, hd]
          | iCont st' tr c =>
            rw [hdd] at hd
            simp only [iterTr] at hd
            simp [h2, h3, hdd, iterTr, finalTexts_append, finalTexts, hd]

theorem processLine_rle (cb : Callbacks) (pp : String → Option JVal)
    (itp : Nat → Bool) (l : RawLine) (st : LoopState) (t : Nat) (g : Bool) :
    readsLE1Aux g (iterTr (processLine cb pp itp l st t)) = true := by
  unfold processLine
  split
  · cases g <;> simp [iterTr, readsLE1Aux]
  · cases l with
    | blank => cases g <;> simp [iterTr, readsLE1Aux]
    | malformed =>
      by_cases h2 : itp (t + 1) = true <;> cases g <;>
        simp [h2, iterTr, readsLE1Aux]
    | json v =>
      by_cases h2 : itp (t + 1) = true
      · cases g <;> simp [h2, iterTr, readsLE1Aux]
      · by_cases h3 : itp (t + 2) = true
        · cases g <;> simp [h2, h3, iterTr, readsLE1Aux]
        · have hd := fun g' => dispatch_rle cb pp itp v st (t + 3) g'
          cases hdd : dispatchEvent cb pp itp v st (t + 3) with
          | iInterrupted st' tr =>
            have hd' : readsLE1Aux false tr = true := by
              have h := hd false; rw [hdd] at h; simpa [iterTr] using h
            cases g <;>
              simp [h2, h3, hdd, iterTr, readsLE1Aux, List.cons_append, hd']
          | iGot w st' tr =>
            have hd' : readsLE1Aux false tr = true := by
              have h := hd false; rw [hdd] at h; simpa [iterTr] using h
            cases g <;>
              simp [h2, h3, hdd, iterTr, readsLE1Aux, List.cons_append, hd']
          | iCont st' tr c =>
            have hd' : readsLE1Aux false tr = true := by
              have h := hd false; rw [hdd] at h; simpa [iterTr] using h
            cases g <;>
              simp [h2, h3, hdd, iterTr, readsLE1Aux, List.cons_append, hd']

theorem processLine_clean (cb : Callbacks) (pp : String → Option JVal)
    (itp : Nat → Bool) (l : RawLine) (st : LoopState) (t : Nat) :
    (isIterIntr (processLine cb pp itp l st t) = true →
      cleanAfterTrue (iterTr (processLine cb pp itp l st t)) = true) ∧
    (isIterIntr (processLine cb pp itp l st t) = false →
      noTrueCheck (iterTr (processLine cb pp itp l st t)) = true) := by
  unfold processLine
  split
  · constructor <;> intro h <;>
      simp_all [isIterIntr, iterTr, cleanAfterTrue, noTrueCheck]
  · cases l with
    | blank =>
      constructor <;> intro h <;>
        simp_all [isIterIntr, iterTr, cleanAfterTrue, noTrueCheck]
    | malformed =>
      by_cases h2 : itp (t + 1) = true <;> constructor <;> intro h <;>
        simp_all [isIterIntr, iterTr, cleanAfterTrue, noTrueCheck]
    | json v =>
      by_cases h2 : itp (t + 1) = true
      · constructor <;> intro h <;>
          simp_all [isIterIntr, iterTr, cleanAfterTrue, noTrueCheck]
      · by_cases h3 : itp (t + 2) = true
        · constructor <;> intro h <;>
            simp_all [isIterIntr, iterTr, cleanAfterTrue, noTrueCheck]
        · cases hdd : dispatchEvent cb pp itp v st (t + 3) with
          | iInterrupted st' tr =>
            have hd1 : cleanAfterTrue tr = true := by
              have h := (dispatch_clean cb pp itp v st (t + 3)).1
              rw [hdd] at h
              simpa [isIterIntr, iterTr] using h
            constructor <;> intro h <;>
              simp_all [h2, h3, hdd, isIterIntr, iterTr, cleanAfterTrue,
                noTrueCheck]
          | iGot w st' tr =>
            have hd2 : noTrueCheck tr = true := by
              have h := (dispatch_clean cb pp itp v st (t + 3)).2
              rw [hdd] at h
              simpa [isIterIntr, iterTr] using h
            constructor <;> intro h <;>
              simp_all [h2, h3, hdd, isIterIntr, iterTr, cleanAfterTrue,
                noTrueCheck]
          | iCont st' tr c =>
            have hd2 : noTrueCheck tr = true := by
              have h := (dispatch_clean cb pp itp v st (t + 3)).2
              rw [hdd] at h
              simpa [isIterIntr, iterTr] using h
            constructor <;> intro h <;>
              simp_all [h2, h3, hdd, isIterIntr, iterTr, cleanAfterTrue,
                noTrueCheck]

theorem processLine_checksIn (cb : Callbacks) (pp : String → Option JVal)
    (itp : Nat → Bool) (l : RawLine) (st : LoopState) (t : Nat) :
    checksIn (iterTr (processLine cb pp itp l st t)) =
      iterTicks (processLine cb pp itp l st t) := by
  unfold processLine
  split
  · simp [iterTr, iterTicks, checksIn]
  · cases l with
    | blank => simp [iterTr, iterTicks, checksIn]
    | malformed =>
      by_cases h2 : itp (t + 1) = true <;>
        simp [h2, iterTr, iterTicks, checksIn]
    | json v =>
      by_cases h2 : itp (t + 1) = true
      · simp [h2, iterTr, iterTicks, checksIn]
      · by_cases h3 : itp (t + 2) = true
        · simp [h2, h3, iterTr, iterTicks, checksIn]
        · have hd := dispatch_checksIn cb pp itp v st (t + 3)
          cases hdd : dispatchEvent cb pp itp v st (t + 3) with
          | iInterrupted st' tr =>
            simp [h2, h3, hdd, iterTr, iterTicks, checksIn]
          | iGot w st' tr =>
            simp [h2, h3, hdd, iterTr, iterTicks, checksIn]
          | iCont st' tr c =>
            rw [hdd] at hd
            simp only [iterTr, iterTicks] at hd
            simp [h2, h3, hdd, iterTr, iterTicks, checksIn, hd]
            omega

theorem processLine_mono (cb : Callbacks) (pp : String → Option JVal)
    (k : Nat) (l : RawLine) (st : LoopState) (t : Nat) :
    isIterIntr (processLine cb pp (fun n => decide (k ≤ n)) l st t) = false →
    t + checksIn (iterTr (processLine cb pp (fun n => decide (k ≤ n)) l st t))
      ≤ k := by
  unfold processLine
  split
  case isTrue => intro h; simp [isIterIntr] at h
  case isFalse h1 =>
    have h1' : ¬ k ≤ t := by simpa using h1
    cases l with
    | blank => intro _; simp [iterTr, checksIn]; omega
    | malformed =>
      by_cases h2 : decide (k ≤ (t + 1)) = true
      · intro h; simp_all [isIterIntr]
      · have h2' : ¬ k ≤ t + 1 := by simpa using h2
        intro _
        simp only [h2, Bool.false_eq_true, if_false, iterTr, checksIn]
        omega
    | json v =>
      by_cases h2 : decide (k ≤ (t + 1)) = true
      · simp only [h2, if_true]
        intro h
        simp [isIterIntr] at h
      · have h2' : ¬ k ≤ t + 1 := by simpa using h2
        simp only [h2, Bool.false_eq_true, if_false]
        by_cases h3 : decide (k ≤ (t + 2)) = true
        · simp only [h3, if_true]
          intro h
          simp [isIterIntr] at h
        · have h3' : ¬ k ≤ t + 2 := by simpa using h3
          simp only [h3, Bool.false_eq_true, if_false]
          have hd := dispatch_mono cb pp k v st (t + 3)
          cases hdd : dispatchEvent cb pp (fun n => decide (k ≤ n)) v st (t + 3) with
          | iInterrupted st' tr =>
            intro h
            simp_all [isIterIntr, hdd]
          | iGot w st' tr =>
            rw [hdd] at hd
            have hle := hd (by simp [isIterIntr])
            simp only [iterTicks, iterTr, checksIn] at hle
            intro _
            simp only [hdd, iterTr, checksIn, List.append_eq, List.nil_append]
            omega
          | iCont st' tr c =>
            rw [hdd] at hd
            have hle := hd (by simp [isIterIntr])
            simp only [iterTicks] at hle
            have hc := dispatch_checksIn cb pp (fun n => decide (k ≤ n)) v st (t + 3)
            rw [hdd] at hc
            simp only [iterTr, iterTicks] at hc
            intro _
            simp only [hdd, iterTr, checksIn, List.append_eq, List.nil_append]
            omega

/-- The loop state carried by a loop result. -/
def loopSt : LoopRes → LoopState
  | .interrupted st => st
  | .eof st => st
  | .got _ st => st

/-- Whether the loop ended because a check returned true. -/
def isLoopIntr : LoopRes → Bool
  | .interrupted _ => true
  | _ => false

theorem readLoop_toolCalls (cb : Callbacks) (pp : String → Option JVal)
    (itp : Nat → Bool) :
    ∀ (lines : List RawLine) (st : LoopState) (t : Nat),
      (loopSt (readLoop cb pp itp lines st t).1).toolCalls =
        st.toolCalls ++ recordsOf (readLoop cb pp itp lines st t).2 := by
  intro lines
  induction lines with
  | nil =>
    intro st t
    unfold readLoop
    split <;> simp [loopSt, recordsOf]
  | cons l rest ih =>
    intro st t
    unfold readLoop
    cases hp : processLine cb pp itp l st t with
    | iInterrupted st' tr =>
      have h := processLine_toolCalls cb pp itp l st t
      rw [hp] at h
      simp only [iterSt, iterTr] at h
      simp [hp, loopSt, h]
    | iGot v st' tr =>
      have h := processLine_toolCalls cb pp itp l st t
      rw [hp] at h
      simp only [iterSt, iterTr] at h
      simp [hp, loopSt, h]
    | iCont st' tr c =>
      have h := processLine_toolCalls cb pp itp l st t
      rw [hp] at h
      simp only [iterSt, iterTr] at h
      simp [hp, recordsOf_append, h, ih, List.append_assoc]

theorem readLoop_sent (cb : Callbacks) (pp : String → Option JVal)
    (itp : Nat → Bool) :
    ∀ (lines : List RawLine) (st : LoopState) (t : Nat),
      (loopSt (readLoop cb pp itp lines st t).1).sentTextBlocks =
        st.sentTextBlocks ++ nonFinalTexts (readLoop cb pp itp lines st t).2 := by
  intro lines
  induction lines with
  | nil =>
    intro st t
    unfold readLoop
    split <;> simp [loopSt, nonFinalTexts]
  | cons l rest ih =>
    intro st t
    unfold readLoop
    cases hp : processLine cb pp itp l st t with
    | iInterrupted st' tr =>
      have h := processLine_sent cb pp itp l st t
      rw [hp] at h
      simp only [iterSt, iterTr] at h
      simp [hp, loopSt, h]
    | iGot v st' tr =>
      have h := processLine_sent cb pp itp l st t
      rw [hp] at h
      simp only [iterSt, iterTr] at h
      simp [hp, loopSt, h]
    | iCont st' tr c =>
      have h := processLine_sent cb pp itp l st t
      rw [hp] at h
      simp only [iterSt, iterTr] at h
      simp [hp, nonFinalTexts_append, h, ih, List.append_assoc]

theorem readLoop_last (cb : Callbacks) (pp : String → Option JVal)
    (itp : Nat → Bool) :
    ∀ (lines : List RawLine) (st : LoopState) (t : Nat),
      (loopSt (readLoop cb pp itp lines st t).1).lastTextBlock =
        lastUpd (nonFinalTexts (readLoop cb pp itp lines st t).2)
          st.lastTextBlock := by
  intro lines
  induction lines with
  | nil =>
    intro st t
    unfold readLoop
    split <;> simp [loopSt, nonFinalTexts, lastUpd]
  | cons l rest ih =>
    intro st t
    unfold readLoop
    cases hp : processLine cb pp itp l st t with
    | iInterrupted st' tr =>
      have h := processLine_last cb pp itp l st t
      rw [hp] at h
      simp only [iterSt, iterTr] at h
      simp [hp, loopSt, h]
    | iGot v st' tr =>
      have h := processLine_last cb pp itp l st t
      rw [hp] at h
      simp only [iterSt, iterTr] at h
      simp [hp, loopSt, h]
    | iCont st' tr c =>
      have h := processLine_last cb pp itp l st t
      rw [hp] at h
      simp only [iterSt, iterTr] at h
      simp [hp, nonFinalTexts_append, lastUpd_append, h, ih]

theorem readLoop_finalTexts (cb : Callbacks) (pp : String → Option JVal)
    (itp : Nat → Bool) :
    ∀ (lines : List RawLine) (st : LoopState) (t : Nat),
      finalTexts (readLoop cb pp itp lines st t).2 = [] := by
  intro lines
  induction lines with
  | nil =>
    intro st t
    unfold readLoop
    split <;> simp [finalTexts]
  | cons l rest ih =>
    intro st t
    unfold readLoop
    cases hp : processLine cb pp itp l st t with
    | iInterrupted st' tr =>
      have h := processLine_finalTexts cb pp itp l st t
      rw [hp] at h
      simp only [iterTr] at h
      simp [hp, h]
    | iGot v st' tr =>
      have h := processLine_finalTexts cb pp itp l st t
      rw [hp] at h
      simp only [iterTr] at h
      simp [hp, h]
    | iCont st' tr c =>
      have h := processLine_finalTexts cb pp itp l st t
      rw [hp] at h
      simp only [iterTr] at h
      simp [hp, finalTexts_append, h, ih]

theorem readLoop_rle (cb : Callbacks) (pp : String → Option JVal)
    (itp : Nat → Bool) :
    ∀ (lines : List RawLine) (st : LoopState) (t : Nat) (g : Bool),
      readsLE1Aux g (readLoop cb pp itp lines st t).2 = true := by
  intro lines
  induction lines with
  | nil =>
    intro st t g
    unfold readLoop
    split <;> cases g <;> simp [readsLE1Aux]
  | cons l rest ih =>
    intro st t g
    unfold readLoop
    cases hp : processLine cb pp itp l st t with
    | iInterrupted st' tr =>
      have h := processLine_rle cb pp itp l st t g
      rw [hp] at h
      simpa [hp, iterTr] using h
    | iGot v st' tr =>
      have h := processLine_rle cb pp itp l st t g
      rw [hp] at h
      simpa [hp, iterTr] using h
    | iCont st' tr c =>
      have h : readsLE1Aux g tr = true := by
        have hh := processLine_rle cb pp itp l st t g
        rw [hp] at hh
        simpa [iterTr] using hh
      simp only [hp]
      exact readsLE1Aux_append tr _ g h (fun g' => ih st' (t + c) g')

theorem readLoop_clean (cb : Callbacks) (pp : String → Option JVal)
    (itp : Nat → Bool) :
    ∀ (lines : List RawLine) (st : LoopState) (t : Nat),
      (isLoopIntr (readLoop cb pp itp lines st t).1 = true →
        cleanAfterTrue (readLoop cb pp itp lines st t).2 = true) ∧
      (isLoopIntr (readLoop cb pp itp lines st t).1 = false →
        noTrueCheck (readLoop cb pp itp lines st t).2 = true) := by
  intro lines
  induction lines with
  | nil =>
    intro st t
    unfold readLoop
    split <;> constructor <;> intro h <;>
      simp_all [isLoopIntr, cleanAfterTrue, noTrueCheck]
  | cons l rest ih =>
    intro st t
    unfold readLoop
    cases hp : processLine cb pp itp l st t with
    | iInterrupted st' tr =>
      have h := (processLine_clean cb pp itp l st t).1
      rw [hp] at h
      have h' : cleanAfterTrue tr = true := by
        simpa [isIterIntr, iterTr] using h
      constructor <;> intro hh <;> simp_all [hp, isLoopIntr]
    | iGot v st' tr =>
      have h := (processLine_clean cb pp itp l st t).2
      rw [hp] at h
      have h' : noTrueCheck tr = true := by
        simpa [isIterIntr, iterTr] using h
      constructor <;> intro hh <;> simp_all [hp, isLoopIntr]
    | iCont st' tr c =>
      have h := (processLine_clean cb pp itp l st t).2
      rw [hp] at h
      have h' : noTrueCheck tr = true := by
        simpa [isIterIntr, iterTr] using h
      constructor <;> intro hh
      · simp only [hp] at hh ⊢
        exact cleanAfterTrue_append tr _ h' ((ih st' (t + c)).1 hh)
      · simp only [hp] at hh ⊢
        rw [noTrueCheck_append]
        simp [h', (ih st' (t + c)).2 hh]

theorem readLoop_mono (cb : Callbacks) (pp : String → Option JVal) (k : Nat) :
    ∀ (lines : List RawLine) (st : LoopState) (t : Nat),
      isLoopIntr (readLoop cb pp (fun n => decide (k ≤ n)) lines st t).1 =
          false →
      t + checksIn (readLoop cb pp (fun n => decide (k ≤ n)) lines st t).2
        ≤ k := by
  intro lines
  induction lines with
  | nil =>
    intro st t
    unfold readLoop
    by_cases h1 : decide (k ≤ t) = true
    · simp only [h1, if_true]
      intro h
      simp [isLoopIntr] at h
    · have h1' : ¬ k ≤ t := by simpa using h1
      simp only [h1, Bool.false_eq_true, if_false]
      intro _
      simp only [checksIn]
      omega
  | cons l rest ih =>
    intro st t
    unfold readLoop
    cases hp : processLine cb pp (fun n => decide (k ≤ n)) l st t with
    | iInterrupted st' tr =>
      intro h
      simp [hp, isLoopIntr] at h
    | iGot v st' tr =>
      have h := processLine_mono cb pp k l st t
      rw [hp] at h
      have hle := h (by simp [isIterIntr])
      simp only [iterTr] at hle
      intro _
      simpa [hp] using hle
    | iCont st' tr c =>
      have h := processLine_mono cb pp k l st t
      rw [hp] at h
      have hle := h (by simp [isIterIntr])
      simp only [iterTr] at hle
      have hc := processLine_checksIn cb pp (fun n => decide (k ≤ n)) l st t
      rw [hp] at hc
      simp only [iterTr, iterTicks] at hc
      intro hh
      simp only [hp] at hh ⊢
      have h2 := ih st' (t + c) hh
      simp [checksIn_append]
      omega

/-- Helper: the post-loop trace appendix is empty or one final
`on_text_block` re-invocation. -/
theorem finalizeResult_extra (st : LoopState) (v : JVal) :
    (finalizeResult st v).2 = [] ∨
      ∃ s, (finalizeResult st v).2 = [TraceEv.textBlock s true] := by
  unfold finalizeResult
  simp only []
  repeat' split
  all_goals simp

/-- C5.  Interruption semantics of the read loop, with the cooperative
predicate sampled at its invocation sites and becoming true from its
k-th invocation on (`fun n => decide (k ≤ n)` — once true, always true).
(1) Once a check observes true, nothing further happens: the trace ends
at that check, so no further callbacks fire and no further line is read.
(2) At most one `readline` occurs between consecutive checks, so the
call returns within one line-read cycle of the predicate being observed.
(3) If the loop performed more than k checks — i.e. the predicate was
observed true — the call returns a structured outcome with
`success=False`, response `"Request interrupted by user"`, and exactly
the tool calls recorded so far preserved in the result. -/
theorem c5_interrupt_behavior (cb : Callbacks) (pp : String → Option JVal)
    (k : Nat) (lines : List RawLine) :
    cleanAfterTrue (runStream cb pp (fun n => decide (k ≤ n)) lines).2 = true ∧
    readsLE1Aux false (runStream cb pp (fun n => decide (k ≤ n)) lines).2 =
      true ∧
    (k < checksIn (runStream cb pp (fun n => decide (k ≤ n)) lines).2 →
      (runStream cb pp (fun n => decide (k ≤ n)) lines).1 =
        .ok (interruptedOutcome
          (recordsOf (runStream cb pp (fun n => decide (k ≤ n)) lines).2))) := by
  have hclean := readLoop_clean cb pp (fun n => decide (k ≤ n)) lines
    initLoopState 0
  have hrle := readLoop_rle cb pp (fun n => decide (k ≤ n)) lines
    initLoopState 0 false
  have hmono := readLoop_mono cb pp k lines initLoopState 0
  have htc := readLoop_toolCalls cb pp (fun n => decide (k ≤ n)) lines
    initLoopState 0
  unfold runStream runStreamFrom
  cases hr : readLoop cb pp (fun n => decide (k ≤ n)) lines initLoopState 0 with
  | mk res tr =>
    rw [hr] at hclean hrle hmono htc
    cases res with
    | interrupted st =>
      have hcl : cleanAfterTrue tr = true := hclean.1 (by simp [isLoopIntr])
      have htc' : st.toolCalls = recordsOf tr := by
        simpa [loopSt, initLoopState] using htc
      refine ⟨by simpa using hcl, by simpa using hrle, fun _ => ?_⟩
      simp [interruptedOutcome, htc']
    | eof st =>
      have hnt : noTrueCheck tr = true := hclean.2 (by simp [isLoopIntr])
      refine ⟨by simpa using cleanAfterTrue_of_noTrue tr hnt,
        by simpa using hrle, fun hlt => ?_⟩
      have hm : checksIn tr ≤ k := by simpa using hmono (by simp [isLoopIntr])
      have hlt' : k < checksIn tr := by simpa using hlt
      omega
    | got v st =>
      have hnt : noTrueCheck tr = true := hclean.2 (by simp [isLoopIntr])
      have hm : checksIn tr ≤ k := by
        simpa using hmono (by simp [isLoopIntr])
      rcases finalizeResult_extra st v with hex | ⟨s, hex⟩
      · refine ⟨?_, ?_, fun hlt => ?_⟩
        · simp only [hex, List.append_nil]
          exact cleanAfterTrue_of_noTrue tr hnt
        · simpa [hex] using hrle
        · have hlt' : k < checksIn tr := by
            simpa [hex] using hlt
          omega
      · refine ⟨?_, ?_, fun hlt => ?_⟩
        · simp only [hex]
          exact cleanAfterTrue_append tr _ hnt (by simp [cleanAfterTrue])
        · simp only [hex]
          exact readsLE1Aux_append tr _ false hrle
            (by intro g; cases g <;> simp [readsLE1Aux])
        · have hlt' : k < checksIn tr := by
            simpa [hex, checksIn_append, checksIn] using hlt
          omega

/-- Witness for `c5_interrupt_behavior`: the predicate is already true
at its very first sample (k = 0), the loop is interrupted before
reading anything, and the outcome is the structured interruption
failure. -/
theorem c5_interrupt_witness :
    0 < checksIn (runStream ⟨true, true, true, true, true⟩ (fun _ => none)
        (fun n => decide (0 ≤ n)) [.blank]).2 ∧
    (runStream ⟨true, true, true, true, true⟩ (fun _ => none)
        (fun n => decide (0 ≤ n)) [.blank]).1 =
      .ok (interruptedOutcome
        (recordsOf (runStream ⟨true, true, true, true, true⟩ (fun _ => none)
          (fun n => decide (0 ≤ n)) [.blank]).2)) :=
  ⟨by decide,
   (c5_interrupt_behavior ⟨true, true, true, true, true⟩ (fun _ => none) 0
     [.blank]).2.2 (by decide)⟩

/-- Whether a line decodes to an event with the `result` discriminator
(the only event that makes the read loop capture a result and break). -/
def isResultLine : RawLine → Bool
  | .json v =>
    match jget v "type" with
    | some (.jstr "result") => true
    | _ => false
  | _ => false

theorem procItems_ff_not_intr (cb : Callbacks) :
    ∀ (items : List JVal) (st : LoopState) (t : Nat),
      (procItems cb (fun _ => false) items st t).intr = false := by
  intro items
  induction items with
  | nil => intro st t; simp [procItems]
  | cons item rest ih =>
    intro st t
    cases item
    case jobj fs =>
      simp only [procItems]
      split
      · split
        · simp
        · split
          · simp [ih]
          · simp [ih]
      · split <;> simp [ih]
      · simp [ih]
    all_goals simp [procItems]

theorem handleDelta_ff (cb : Callbacks) (pp : String → Option JVal)
    (v : JVal) (st : LoopState) (u : Nat) :
    ∃ st' tr c, handleDelta cb pp (fun _ => false) v st u = .iCont st' tr c := by
  unfold handleDelta
  simp only []
  repeat' split
  all_goals first
    | exact ⟨_, _, _, rfl⟩
    | simp_all

theorem dispatch_ff (cb : Callbacks) (pp : String → Option JVal)
    (v : JVal) (st : LoopState) (u : Nat)
    (h : jget v "type" ≠ some (.jstr "result")) :
    ∃ st' tr c, dispatchEvent cb pp (fun _ => false) v st u = .iCont st' tr c := by
  unfold dispatchEvent
  split
  · exact ⟨st, [], 0, rfl⟩
  · refine ⟨(procItems cb (fun _ => false) (contentItems v) st u).st,
      (procItems cb (fun _ => false) (contentItems v) st u).tr,
      (procItems cb (fun _ => false) (contentItems v) st u).ticks, ?_⟩
    rw [assistantWrap]
    simp [procItems_ff_not_intr]
  · exact handleDelta_ff cb pp v st u
  · rename_i heq
    exact absurd heq h
  · exact ⟨st, [], 0, rfl⟩

theorem processLine_ff_cases (cb : Callbacks) (pp : String → Option JVal)
    (l : RawLine) (st : LoopState) (t : Nat) (h : isResultLine l = false) :
    ∃ st' tr c, processLine cb pp (fun _ => false) l st t = .iCont st' tr c := by
  unfold processLine
  cases l with
  | blank => exact ⟨st, [.check false, .readLine], 1, by simp⟩
  | malformed =>
    exact ⟨st, [.check false, .readLine, .check false], 2, by simp⟩
  | json v =>
    have hv : jget v "type" ≠ some (.jstr "result") := by
      intro hc
      rw [isResultLine] at h
      simp [hc] at h
    obtain ⟨st', tr, c, hd⟩ := dispatch_ff cb pp v st (t + 3) hv
    exact ⟨st',
      .check false :: .readLine :: .check false :: .check false :: tr,
      3 + c, by simp [hd]⟩

theorem readLoop_ff_eof (cb : Callbacks) (pp : String → Option JVal) :
    ∀ (lines : List RawLine) (st : LoopState) (t : Nat),
      (∀ l ∈ lines, isResultLine l = false) →
      ∃ st' tr, readLoop cb pp (fun _ => false) lines st t = (.eof st', tr) := by
  intro lines
  induction lines with
  | nil =>
    intro st t _
    refine ⟨st, [.check false, .readLine], ?_⟩
    unfold readLoop
    simp
  | cons l rest ih =>
    intro st t h
    obtain ⟨st', tr, c, hp⟩ := processLine_ff_cases cb pp l st t (h l (by simp))
    obtain ⟨st'', tr', hr⟩ := ih st' (t + c) (fun x hx => h x (by simp [hx]))
    refine ⟨st'', tr ++ tr', ?_⟩
    unfold readLoop
    simp [hp, hr]

/-- C7.  If the process output stream reaches end-of-file without a
`result` event having been captured (no line of the stream carries the
`result` discriminator) and no interruption is requested, the read-loop
part of `execute_streaming` returns the structured outcome
`success=False`, `"No response received from Claude process"` — it is a
total function of the stream, so no exception is raised on this path. -/
theorem c7_eof_no_result (cb : Callbacks) (pp : String → Option JVal)
    (lines : List RawLine) (h : ∀ l ∈ lines, isResultLine l = false) :
    ∃ tcs tr, runStream cb pp (fun _ => false) lines =
      (.ok (noResponseOutcome tcs), tr) := by
  obtain ⟨st', tr, hr⟩ := readLoop_ff_eof cb pp lines initLoopState 0 h
  refine ⟨st'.toolCalls, tr, ?_⟩
  unfold runStream runStreamFrom
  simp [hr]

/-- Witness for `c7_eof_no_result` on a concrete stream holding a
malformed line and a `system` event but no `result`. -/
theorem c7_eof_witness :
    ∃ tcs tr,
      runStream ⟨true, true, true, true, true⟩ (fun _ => none)
          (fun _ => false)
          [.malformed, .json (.jobj [("type", .jstr "system")])] =
        (.ok (noResponseOutcome tcs), tr) :=
  c7_eof_no_result ⟨true, true, true, true, true⟩ (fun _ => none)
    [.malformed, .json (.jobj [("type", .jstr "system")])]
    (by
      intro l hl
      rcases List.mem_cons.mp hl with rfl | hl'
      · rfl
      · rcases List.mem_cons.mp hl' with rfl | hl''
        · rfl
        · cases hl'')

/-- Whether the decoded event's `type` discriminator is one the read
loop recognizes (`system`, `assistant`, `content_block_delta`,
`result`). -/
def recognizedType (v : JVal) : Bool :=
  match jget v "type" with
  | some (.jstr s) =>
    s == "system" || s == "assistant" || s == "content_block_delta" ||
      s == "result"
  | _ => false

/-- A line the read loop skips without any effect: one that fails to
decode as JSON, or one whose `type` discriminator is unrecognized
(including absent or non-string). -/
def skippable : RawLine → Bool
  | .blank => false
  | .malformed => true
  | .json v => !recognizedType v

theorem dispatch_unrecognized (cb : Callbacks) (pp : String → Option JVal)
    (itp : Nat → Bool) (v : JVal) (st : LoopState) (u : Nat)
    (h : recognizedType v = false) :
    dispatchEvent cb pp itp v st u = .iCont st [] 0 := by
  unfold dispatchEvent
  split
  all_goals first
    | rfl
    | (rename_i heq; simp [recognizedType, heq] at h)

theorem procItems_ff_tick (cb : Callbacks) :
    ∀ (items : List JVal) (st : LoopState) (t : Nat),
      procItems cb (fun _ => false) items st t =
        procItems cb (fun _ => false) items st 0 := by
  intro items
  induction items with
  | nil => intro st t; rfl
  | cons item rest ih =>
    intro st t
    cases item
    case jobj fs =>
      simp only [procItems]
      split
      · split
        · rfl
        · split <;> simp [ih]
      · split <;> simp [ih]
      · simp [ih]
    all_goals simp [procItems]

theorem handleDelta_ff_tick (cb : Callbacks) (pp : String → Option JVal)
    (v : JVal) (st : LoopState) (t : Nat) :
    handleDelta cb pp (fun _ => false) v st t =
      handleDelta cb pp (fun _ => false) v st 0 := by
  unfold handleDelta
  simp only []

theorem dispatch_ff_tick (cb : Callbacks) (pp : String → Option JVal)
    (v : JVal) (st : LoopState) (t : Nat) :
    dispatchEvent cb pp (fun _ => false) v st t =
      dispatchEvent cb pp (fun _ => false) v st 0 := by
  unfold dispatchEvent
  split
  · rfl
  · rw [procItems_ff_tick cb (contentItems v) st t]
  · exact handleDelta_ff_tick cb pp v st t
  · simp
  · rfl

theorem processLine_ff_tick (cb : Callbacks) (pp : String → Option JVal)
    (l : RawLine) (st : LoopState) (t : Nat) :
    processLine cb pp (fun _ => false) l st t =
      processLine cb pp (fun _ => false) l st 0 := by
  unfold processLine
  cases l with
  | blank => simp
  | malformed => simp
  | json v => simp [dispatch_ff_tick]

theorem readLoop_ff_tick (cb : Callbacks) (pp : String → Option JVal) :
    ∀ (lines : List RawLine) (st : LoopState) (t : Nat),
      readLoop cb pp (fun _ => false) lines st t =
        readLoop cb pp (fun _ => false) lines st 0 := by
  intro lines
  induction lines with
  | nil => intro st t; unfold readLoop; simp
  | cons l rest ih =>
    intro st t
    unfold readLoop
    rw [processLine_ff_tick cb pp l st t]
    cases hp : processLine cb pp (fun _ => false) l st 0 with
    | iInterrupted st' tr => simp [hp]
    | iGot v st' tr => simp [hp]
    | iCont st' tr c => simp [hp, ih]

theorem readLoop_cons_cont (cb : Callbacks) (pp : String → Option JVal)
    (itp : Nat → Bool) (l : RawLine) (rest : List RawLine) (st : LoopState)
    (t : Nat) (st' : LoopState) (tr : List TraceEv) (c : Nat)
    (hp : processLine cb pp itp l st t = .iCont st' tr c) :
    readLoop cb pp itp (l :: rest) st t =
      ((readLoop cb pp itp rest st' (t + c)).1,
       tr ++ (readLoop cb pp itp rest st' (t + c)).2) := by
  simp only [readLoop, hp]

/-- C9.  A line that is not valid JSON, and a line whose `type`
discriminator is unrecognized, are silently skipped by the read loop:
the loop's final result (and hence the outcome handed to the caller) is
exactly what it would have been without that line — no error is
surfaced — and the emitted callback events are identical, so no
callback fires for the skipped line; processing continues with the next
line.  (Decoding itself is the total function presenting the line as a
`RawLine`; nothing on this path raises.) -/
theorem c9_skippable_lines (cb : Callbacks) (pp : String → Option JVal)
    (l : RawLine) (rest : List RawLine) (st : LoopState)
    (h : skippable l = true) :
    (readLoop cb pp (fun _ => false) (l :: rest) st 0).1 =
      (readLoop cb pp (fun _ => false) rest st 0).1 ∧
    emitsOf (readLoop cb pp (fun _ => false) (l :: rest) st 0).2 =
      emitsOf (readLoop cb pp (fun _ => false) rest st 0).2 ∧
    (runStreamFrom cb pp (fun _ => false) st (l :: rest)).1 =
      (runStreamFrom cb pp (fun _ => false) st rest).1 := by
  have key : ∃ junk, emitsOf junk = [] ∧
      readLoop cb pp (fun _ => false) (l :: rest) st 0 =
        ((readLoop cb pp (fun _ => false) rest st 0).1,
         junk ++ (readLoop cb pp (fun _ => false) rest st 0).2) := by
    cases l with
    | blank => simp [skippable] at h
    | malformed =>
      have hp : processLine cb pp (fun _ => false) RawLine.malformed st 0 =
          .iCont st [.check false, .readLine, .check false] 2 := by
        simp [processLine]
      refine ⟨[.check false, .readLine, .check false], rfl, ?_⟩
      rw [readLoop_cons_cont cb pp (fun _ => false) _ rest st 0 st _ _ hp,
        readLoop_ff_tick cb pp rest st 2]
    | json v =>
      have h' : recognizedType v = false := by simpa [skippable] using h
      have hp : processLine cb pp (fun _ => false) (RawLine.json v) st 0 =
          .iCont st [.check false, .readLine, .check false, .check false]
            3 := by
        simp [processLine, dispatch_unrecognized cb pp (fun _ => false) v st 3 h']
      refine ⟨[.check false, .readLine, .check false, .check false], rfl, ?_⟩
      rw [readLoop_cons_cont cb pp (fun _ => false) _ rest st 0 st _ _ hp,
        readLoop_ff_tick cb pp rest st 3]
  obtain ⟨junk, hj, key⟩ := key
  refine ⟨by rw [key], ?_, ?_⟩
  · rw [key]
    simp [emitsOf_append, hj]
  · unfold runStreamFrom
    rw [key]
    cases hr : readLoop cb pp (fun _ => false) rest st 0 with
    | mk res tr =>
      cases res <;> simp

/-- Witness for `c9_skippable_lines`: a malformed line in front of an
empty stream changes neither the loop result nor the emitted events nor
the outcome. -/
theorem c9_skippable_witness :
    (readLoop ⟨true, true, true, true, true⟩ (fun _ => none) (fun _ => false)
        [.malformed] initLoopState 0).1 =
      (readLoop ⟨true, true, true, true, true⟩ (fun _ => none)
        (fun _ => false) [] initLoopState 0).1 ∧
    emitsOf (readLoop ⟨true, true, true, true, true⟩ (fun _ => none)
        (fun _ => false) [.malformed] initLoopState 0).2 =
      emitsOf (readLoop ⟨true, true, true, true, true⟩ (fun _ => none)
        (fun _ => false) [] initLoopState 0).2 ∧
    (runStreamFrom ⟨true, true, true, true, true⟩ (fun _ => none)
        (fun _ => false) initLoopState [.malformed]).1 =
      (runStreamFrom ⟨true, true, true, true, true⟩ (fun _ => none)
        (fun _ => false) initLoopState []).1 :=
  c9_skippable_lines ⟨true, true, true, true, true⟩ (fun _ => none)
    .malformed [] initLoopState rfl

/-- C10.  A `result` event whose `result` field is absent or the empty
string makes the read loop capture `""` and break; because the post-loop
guard is `if result_received and final_result:` and the empty string is
falsy, the call returns the same structured failure as a clean
end-of-stream with no result event at all — `success=False`,
`"No response received from Claude process"` — even though a terminal
`result` event was in fact received. -/
theorem c10_empty_result_no_response (cb : Callbacks)
    (pp : String → Option JVal) (v : JVal) (rest : List RawLine)
    (st : LoopState) (hty : jget v "type" = some (.jstr "result"))
    (hres : jget v "result" = none ∨ jget v "result" = some (.jstr "")) :
    runStreamFrom cb pp (fun _ => false) st (.json v :: rest) =
      (.ok (noResponseOutcome st.toolCalls),
       [.check false, .readLine, .check false, .check false,
        .check false]) := by
  have hd : dispatchEvent cb pp (fun _ => false) v st 3 =
      .iGot (.jstr "") st [.check false] := by
    unfold dispatchEvent
    rw [hty]
    rcases hres with h | h <;> simp [h]
  have hp : processLine cb pp (fun _ => false) (RawLine.json v) st 0 =
      .iGot (.jstr "") st
        [.check false, .readLine, .check false, .check false,
         .check false] := by
    unfold processLine
    simp [hd]
  unfold runStreamFrom
  simp only [readLoop, hp]
  simp [finalizeResult, pyTruthy, noResponseOutcome]

/-- Witness for `c10_empty_result_no_response`: a `result` event with no
`result` field at all. -/
theorem c10_empty_result_witness :
    runStreamFrom ⟨true, true, true, true, true⟩ (fun _ => none)
        (fun _ => false) initLoopState
        [.json (.jobj [("type", .jstr "result")])] =
      (.ok (noResponseOutcome initLoopState.toolCalls),
       [.check false, .readLine, .check false, .check false,
        .check false]) :=
  c10_empty_result_no_response ⟨true, true, true, true, true⟩ (fun _ => none)
    (.jobj [("type", .jstr "result")]) [] initLoopState rfl (Or.inl rfl)

/-- Helper: how a successful post-loop outcome is built
(client.py lines 638-655): the result is a non-empty string `s`, the
response is `s.strip()`, `already_sent_as_text_block` is membership of
that text in `sent_text_blocks`, and the `is_final=True` re-invocation
happens exactly when the text also equals the *last* streamed text
block. -/
theorem finalizeResult_ok (st : LoopState) (v : JVal) (o : Outcome)
    (extra : List TraceEv) (hf : finalizeResult st v = (.ok o, extra))
    (hs : o.success = true) :
    ∃ s : String, v = .jstr s ∧
      o = ⟨true, (pyStrip s), st.toolCalls, st.sentTextBlocks.contains (pyStrip s)⟩ ∧
      extra = (if st.sentTextBlocks.contains (pyStrip s) &&
                  (st.lastTextBlock == some (pyStrip s))
               then [TraceEv.textBlock (pyStrip s) true] else []) := by
  unfold finalizeResult at hf
  by_cases ht : pyTruthy v = true
  · simp only [ht, if_true] at hf
    cases v with
    | jstr s =>
      simp only [Prod.ext_iff] at hf
      obtain ⟨ho, hex⟩ := hf
      have ho' := (Except.ok.inj ho).symm
      refine ⟨s, rfl, ho', ?_⟩
      rw [← hex]
      cases hl : st.lastTextBlock with
      | none => simp
      | some txt =>
        by_cases ha : st.sentTextBlocks.contains (pyStrip s) = true
        · by_cases hb : (txt == (pyStrip s)) = true
          · simp [ha, hb]
          · rw [Bool.not_eq_true] at hb
            simp [ha, hb]
        · rw [Bool.not_eq_true] at ha
          simp only [ha, Bool.false_eq_true, Bool.false_and, if_false]
    | jnull => simp [pyTruthy] at ht
    | jbool b => simp at hf
    | jnum n => simp at hf
    | jarr xs => simp at hf
    | jobj fs => simp at hf
  · rw [Bool.not_eq_true] at ht
    simp only [ht, Bool.false_eq_true, if_false, Prod.ext_iff] at hf
    obtain ⟨ho, -⟩ := hf
    have := (Except.ok.inj ho).symm
    rw [this] at hs
    simp [noResponseOutcome] at hs

/-- C8 amended.  Relation between a successful outcome and the callback
trace, for an uninterrupted run of the read loop: `alreadySent` is true
exactly when the final response text occurs among the streamed
(`is_final=False`) text blocks; and the `is_final=True` re-invocation of
`on_text_block` happens exactly when the response text additionally
equals the *most recently* streamed text block (the text stored in
`last_text_block_callback`) — matching any earlier block sets the flag
but triggers no re-invocation. -/
theorem c8_dedup_behavior (cb : Callbacks) (pp : String → Option JVal)
    (lines : List RawLine) (o : Outcome) (tr : List TraceEv)
    (hrun : runStream cb pp (fun _ => false) lines = (.ok o, tr))
    (hsucc : o.success = true) :
    o.alreadySent = (nonFinalTexts tr).contains o.response ∧
    finalTexts tr =
      (if o.alreadySent &&
          (lastUpd (nonFinalTexts tr) none == some o.response)
       then [o.response] else []) := by
  have hsent := readLoop_sent cb pp (fun _ => false) lines initLoopState 0
  have hlast := readLoop_last cb pp (fun _ => false) lines initLoopState 0
  have hfin := readLoop_finalTexts cb pp (fun _ => false) lines initLoopState 0
  unfold runStream runStreamFrom at hrun
  cases hr : readLoop cb pp (fun _ => false) lines initLoopState 0 with
  | mk res trL =>
    rw [hr] at hrun hsent hlast hfin
    cases res with
    | interrupted st =>
      simp only [] at hrun
      injection hrun with h1 h2
      injection h1 with h1
      rw [← h1] at hsucc
      simp [interruptedOutcome] at hsucc
    | eof st =>
      simp only [] at hrun
      injection hrun with h1 h2
      injection h1 with h1
      rw [← h1] at hsucc
      simp [noResponseOutcome] at hsucc
    | got v st =>
      simp only [] at hrun
      injection hrun with h1 h2
      have hf : finalizeResult st v = (.ok o, (finalizeResult st v).2) :=
        Prod.ext h1 rfl
      obtain ⟨s, hv, ho, hex⟩ :=
        finalizeResult_ok st v o (finalizeResult st v).2 hf hsucc
      subst hv
      subst ho
      subst h2
      have hsent' : st.sentTextBlocks = nonFinalTexts trL := by
        simpa [loopSt, initLoopState] using hsent
      have hlast' : st.lastTextBlock = lastUpd (nonFinalTexts trL) none := by
        simpa [loopSt, initLoopState] using hlast
      have hfin' : finalTexts trL = [] := hfin
      have hnfe : nonFinalTexts (finalizeResult st (.jstr s)).2 = [] := by
        rw [hex]; split <;> simp [nonFinalTexts]
      have hfte : finalTexts (finalizeResult st (.jstr s)).2 =
          (if st.sentTextBlocks.contains (pyStrip s) &&
              (st.lastTextBlock == some (pyStrip s))
           then [(pyStrip s)] else []) := by
        rw [hex]; split <;> simp [finalTexts]
      constructor
      · simp [nonFinalTexts_append, hnfe, hsent']
      · simp only [finalTexts_append, hfin', List.nil_append, hfte,
          nonFinalTexts_append, hnfe, List.append_nil]
        rw [hsent', hlast']

/-- C8 counterexample.  The stream emits text blocks `"A"` then `"B"`,
then a `result` whose text is `"A"` — identical to a text block already
emitted during streaming, but not to the last one.  The outcome has
`already_sent_as_text_block = True`, yet `on_text_block` is *not*
re-invoked with `is_final=True` (no final text-block event in the
trace), because client.py line 644-647 compares the final text only
against `last_text_block_callback`, which holds `"B"`. -/
theorem c8_no_reinvoke_on_earlier_block :
    (runStream ⟨true, true, true, true, true⟩ (fun _ => none)
        (fun _ => false)
        [.json (.jobj [("type", .jstr "assistant"),
           ("message", .jobj [("role", .jstr "assistant"),
             ("content", .jarr [.jobj [("type", .jstr "text"),
               ("text", .jstr "A")]])])]),
         .json (.jobj [("type", .jstr "assistant"),
           ("message", .jobj [("role", .jstr "assistant"),
             ("content", .jarr [.jobj [("type", .jstr "text"),
               ("text", .jstr "B")]])])]),
         .json (.jobj [("type", .jstr "result"),
           ("result", .jstr "A")])]).1 =
      .ok ⟨true, "A", [], true⟩ ∧
    finalTexts (runStream ⟨true, true, true, true, true⟩ (fun _ => none)
        (fun _ => false)
        [.json (.jobj [("type", .jstr "assistant"),
           ("message", .jobj [("role", .jstr "assistant"),
             ("content", .jarr [.jobj [("type", .jstr "text"),
               ("text", .jstr "A")]])])]),
         .json (.jobj [("type", .jstr "assistant"),
           ("message", .jobj [("role", .jstr "assistant"),
             ("content", .jarr [.jobj [("type", .jstr "text"),
               ("text", .jstr "B")]])])]),
         .json (.jobj [("type", .jstr "result"),
           ("result", .jstr "A")])]).2 = [] :=
  ⟨rfl, rfl⟩

/-- Witness for `c8_dedup_behavior`: a single streamed block `"Hi"`
followed by a `result` `"Hi"` — here the final text *does* equal the
last streamed block, `alreadySent` is true, and the `is_final=True`
re-invocation appears in the trace. -/
theorem c8_dedup_witness :
    (⟨true, "Hi", [], true⟩ : Outcome).alreadySent =
      (nonFinalTexts [TraceEv.check false, TraceEv.readLine,
        TraceEv.check false, TraceEv.check false, TraceEv.check false,
        TraceEv.textBlock "Hi" false, TraceEv.check false,
        TraceEv.readLine, TraceEv.check false, TraceEv.check false,
        TraceEv.check false, TraceEv.textBlock "Hi" true]).contains
          (⟨true, "Hi", [], true⟩ : Outcome).response ∧
    finalTexts [TraceEv.check false, TraceEv.readLine, TraceEv.check false,
        TraceEv.check false, TraceEv.check false,
        TraceEv.textBlock "Hi" false, TraceEv.check false,
        TraceEv.readLine, TraceEv.check false, TraceEv.check false,
        TraceEv.check false, TraceEv.textBlock "Hi" true] =
      (if (⟨true, "Hi", [], true⟩ : Outcome).alreadySent &&
          (lastUpd (nonFinalTexts [TraceEv.check false, TraceEv.readLine,
            TraceEv.check false, TraceEv.check false, TraceEv.check false,
            TraceEv.textBlock "Hi" false, TraceEv.check false,
            TraceEv.readLine, TraceEv.check false, TraceEv.check false,
            TraceEv.check false, TraceEv.textBlock "Hi" true]) none ==
              some (⟨true, "Hi", [], true⟩ : Outcome).response)
       then [(⟨true, "Hi", [], true⟩ : Outcome).response] else []) :=
  c8_dedup_behavior ⟨true, true, true, true, true⟩ (fun _ => none)
    [.json (.jobj [("type", .jstr "assistant"),
       ("message", .jobj [("role", .jstr "assistant"),
         ("content", .jarr [.jobj [("type", .jstr "text"),
           ("text", .jstr "Hi")]])])]),
     .json (.jobj [("type", .jstr "result"), ("result", .jstr "Hi")])]
    ⟨true, "Hi", [], true⟩
    [TraceEv.check false, TraceEv.readLine, TraceEv.check false,
     TraceEv.check false, TraceEv.check false,
     TraceEv.textBlock "Hi" false, TraceEv.check false, TraceEv.readLine,
     TraceEv.check false, TraceEv.check false, TraceEv.check false,
     TraceEv.textBlock "Hi" true]
    rfl rfl
